import Mathlib

/-!
Verification of the InheritVault on-chain vault protocol layer.

The development shallowly embeds the protocol core of the repository:
the cell-data codec (magic/version header plus compact-key JSON body),
the timelock encoder for the CKB `since` field, and the resolver and
indexer query logic.  JavaScript strings are modelled as `List Char`
(lists of Unicode scalar values), byte sequences as `List Nat` with
values below 256, and the JSON built-ins (`JSON.stringify`,
`JSON.parse`, `TextEncoder`, `TextDecoder`) as executable Lean
functions covering the fragment of behaviour the codec exercises.
-/

/-- Strings of the embedded program: lists of Unicode scalar values. -/
abbrev Str := List Char

-- ── Timelock encoder (src/src/lib/ccc.ts) ───────────────────────────────────

/-- The two unlock kinds of `UnlockType` in `src/types.ts`. -/
inductive UnlockType where
  | blockHeight
  | timestamp
deriving DecidableEq, Repr

/-- Model of `UnlockCondition` from `src/types.ts`: an absolute threshold,
a block height or a unix-seconds timestamp (both non-negative). -/
structure UnlockCondition where
  type : UnlockType
  value : Nat
deriving DecidableEq, Repr

/-- Bit 62 flag marking the absolute-timestamp metric of a `since` value,
`0x4000000000000000` in `buildClaimVaultTransaction`. -/
def timestampFlag : Nat := 0x4000000000000000

/-- Computes `Math.max(0, v - 1)` on a non-negative integer `v`. -/
def adjustedThreshold (v : Nat) : Nat := (max 0 ((v : Int) - 1)).toNat

/-- The `since` value computed by `buildClaimVaultTransaction` in
`src/src/lib/ccc.ts`: block-height conditions encode the threshold
minus one (clamped at zero) with no flag bits; timestamp conditions
OR the adjusted threshold with the timestamp metric flag (bit 62). -/
def encodeClaimLockSince (unlock : UnlockCondition) : Nat :=
  match unlock.type with
  | .blockHeight => adjustedThreshold unlock.value
  | .timestamp => Nat.lor timestampFlag (adjustedThreshold unlock.value)

/-- Model of `isUnlockConditionSatisfied` from `src/src/lib/ccc.ts`: compares the
current tip against the un-adjusted threshold with `>=`. -/
def isUnlockConditionSatisfied (unlock : UnlockCondition)
    (currentBlockHeight currentTimestamp : Nat) : Bool :=
  match unlock.type with
  | .blockHeight => currentBlockHeight ≥ unlock.value
  | .timestamp => currentTimestamp ≥ unlock.value

theorem adjustedThreshold_eq (v : Nat) : adjustedThreshold v = v - 1 := by
  unfold adjustedThreshold
  omega

/-- C1: the claim-lock encoder subtracts one unit from the threshold before
encoding, clamped at zero, and applies the correct metric flag: a
block-height condition of value 500 encodes to the plain integer 499 with
no flag bits set, value 0 encodes to 0, and a timestamp condition of value
1700000000 encodes to bit 62 ORed with 1699999999 (bit 63 clear). -/
theorem claim_C1_encoder_adjustment :
    (∀ v, encodeClaimLockSince ⟨.blockHeight, v⟩ = v - 1) ∧
    (∀ v, encodeClaimLockSince ⟨.timestamp, v⟩ = Nat.lor timestampFlag (v - 1)) ∧
    encodeClaimLockSince ⟨.blockHeight, 500⟩ = 499 ∧
    Nat.testBit (encodeClaimLockSince ⟨.blockHeight, 500⟩) 62 = false ∧
    Nat.testBit (encodeClaimLockSince ⟨.blockHeight, 500⟩) 63 = false ∧
    encodeClaimLockSince ⟨.blockHeight, 0⟩ = 0 ∧
    encodeClaimLockSince ⟨.timestamp, 1700000000⟩ =
      Nat.lor 0x4000000000000000 1699999999 ∧
    Nat.testBit (encodeClaimLockSince ⟨.timestamp, 1700000000⟩) 62 = true ∧
    Nat.testBit (encodeClaimLockSince ⟨.timestamp, 1700000000⟩) 63 = false := by
  refine ⟨fun v => ?_, fun v => ?_, by decide, by decide, by decide, by decide,
    by decide, by decide, by decide⟩
  · simp [encodeClaimLockSince, adjustedThreshold_eq]
  · simp [encodeClaimLockSince, adjustedThreshold_eq]

/-- C2: satisfaction is evaluated against the un-adjusted threshold with a
greater-or-equal comparison, for block heights against the current height
and for timestamps against the current timestamp; the boundary examples at
height 1000 hold for every current timestamp. -/
theorem claim_C2_satisfaction_ge :
    (∀ v h t, isUnlockConditionSatisfied ⟨.blockHeight, v⟩ h t = true ↔ h ≥ v) ∧
    (∀ v h t, isUnlockConditionSatisfied ⟨.timestamp, v⟩ h t = true ↔ t ≥ v) ∧
    (∀ t, isUnlockConditionSatisfied ⟨.blockHeight, 1000⟩ 1000 t = true) ∧
    (∀ t, isUnlockConditionSatisfied ⟨.blockHeight, 1000⟩ 999 t = false) := by
  refine ⟨fun v h t => ?_, fun v h t => ?_, fun t => ?_, fun t => ?_⟩ <;>
    simp [isUnlockConditionSatisfied]

-- ── Byte and hex-string helpers ──────────────────────────────────────────────

/-- Lower-case hex digit for a value below 16, as produced by
`Number.prototype.toString(16)`. -/
def hexDigitChar (d : Nat) : Char :=
  if d < 10 then Char.ofNat (48 + d) else Char.ofNat (87 + d)

/-- Value of a hex digit (either case), `none` for non-hex characters. -/
def hexDigitVal (c : Char) : Option Nat :=
  if 48 ≤ c.toNat ∧ c.toNat ≤ 57 then some (c.toNat - 48)
  else if 97 ≤ c.toNat ∧ c.toNat ≤ 102 then some (c.toNat - 87)
  else if 65 ≤ c.toNat ∧ c.toNat ≤ 70 then some (c.toNat - 55)
  else none

/-- Computes `b.toString(16).padStart(2, "0")` for a byte value: two lower-case
hex digits. -/
def byteHexChars (b : Nat) : Str :=
  [hexDigitChar (b / 16), hexDigitChar (b % 16)]

/-- Hex rendering of a byte sequence, two lower-case digits per byte. -/
def bytesToHexChars (bs : List Nat) : Str :=
  bs.flatMap byteHexChars

/-- Model of `parseInt(s, 16)` restricted to inputs whose first one or two
characters decide the result: JS prefix-parsing of hex digits.  Whitespace
trimming and a `0x` prefix are not modelled; on those inputs both the model
and the source reject the surrounding version check. `none` stands for NaN. -/
def parseIntHex2 (s : Str) : Option Nat :=
  match s with
  | [] => none
  | [c] => hexDigitVal c
  | c1 :: c2 :: _ =>
    match hexDigitVal c1, hexDigitVal c2 with
    | some d1, some d2 => some (16 * d1 + d2)
    | some d1, none => some d1
    | none, _ => none

/-- One byte of the decoder's hex loop: `parseInt(pair, 16)` coerced through
a `Uint8Array` entry (NaN becomes 0). -/
def hexPairByte (c1 c2 : Char) : Nat :=
  match hexDigitVal c1 with
  | none => 0
  | some d1 =>
    match hexDigitVal c2 with
    | none => d1
    | some d2 => 16 * d1 + d2

/-- The decoder's hex-to-bytes loop: one byte per hex pair, a trailing odd
character is dropped. -/
def hexCharsToBytes : Str → List Nat
  | c1 :: c2 :: rest => hexPairByte c1 c2 :: hexCharsToBytes rest
  | _ => []

theorem hexDigitVal_hexDigitChar (d : Nat) (h : d < 16) :
    hexDigitVal (hexDigitChar d) = some d := by
  revert h
  revert d
  decide

theorem hexPairByte_byteHexChars (b : Nat) (h : b < 256) :
    hexPairByte (hexDigitChar (b / 16)) (hexDigitChar (b % 16)) = b := by
  have h1 : b / 16 < 16 := by omega
  have h2 : b % 16 < 16 := by omega
  simp [hexPairByte, hexDigitVal_hexDigitChar _ h1, hexDigitVal_hexDigitChar _ h2]
  omega

theorem hexCharsToBytes_bytesToHexChars (bs : List Nat)
    (h : ∀ b ∈ bs, b < 256) : hexCharsToBytes (bytesToHexChars bs) = bs := by
  induction bs with
  | nil => rfl
  | cons b rest ih =>
    have hb : b < 256 := h b (List.mem_cons_self b rest)
    have hrest : ∀ x ∈ rest, x < 256 := fun x hx => h x (List.mem_cons_of_mem b hx)
    simp only [bytesToHexChars, List.flatMap_cons, byteHexChars, List.cons_append,
      List.nil_append, hexCharsToBytes, hexPairByte_byteHexChars b hb]
    exact congrArg _ (ih hrest)

-- ── UTF-8 (TextEncoder / TextDecoder) ────────────────────────────────────────

/-- UTF-8 encoding of one Unicode scalar value (`TextEncoder`). -/
def utf8EncodeChar (c : Char) : List Nat :=
  let v := c.toNat
  if v < 0x80 then [v]
  else if v < 0x800 then [0xC0 + v / 64, 0x80 + v % 64]
  else if v < 0x10000 then [0xE0 + v / 4096, 0x80 + v / 64 % 64, 0x80 + v % 64]
  else [0xF0 + v / 262144, 0x80 + v / 4096 % 64, 0x80 + v / 64 % 64, 0x80 + v % 64]

/-- UTF-8 encoding of a string (`TextEncoder.encode`). -/
def utf8Encode (s : Str) : List Nat := s.flatMap utf8EncodeChar

/-- U+FFFD, emitted by a non-fatal `TextDecoder` on invalid input. -/
def replChar : Char := Char.ofNat 0xFFFD

/-- A UTF-8 continuation byte. -/
def isContByte (b : Nat) : Prop := 0x80 ≤ b ∧ b < 0xC0

instance (b : Nat) : Decidable (isContByte b) := by
  unfold isContByte
  infer_instance

/-- Fuel-indexed UTF-8 decoder.  Valid sequences decode to their scalar
values; invalid bytes yield U+FFFD.  The exact resynchronisation policy of
`TextDecoder` after an invalid byte is approximated (one byte is consumed
per replacement); the codec only decodes byte strings produced by
`TextEncoder`, where the two agree. -/
def utf8DecodeAux : Nat → List Nat → Str
  | 0, _ => []
  | _, [] => []
  | fuel + 1, b :: rest =>
    if b < 0x80 then Char.ofNat b :: utf8DecodeAux fuel rest
    else if 0xC2 ≤ b ∧ b ≤ 0xDF then
      match rest with
      | b2 :: r2 =>
        if isContByte b2 then
          Char.ofNat ((b - 0xC0) * 64 + (b2 - 0x80)) :: utf8DecodeAux fuel r2
        else replChar :: utf8DecodeAux fuel rest
      | [] => [replChar]
    else if 0xE0 ≤ b ∧ b ≤ 0xEF then
      match rest with
      | b2 :: b3 :: r3 =>
        if isContByte b2 ∧ isContByte b3 then
          let v := (b - 0xE0) * 4096 + (b2 - 0x80) * 64 + (b3 - 0x80)
          if v < 0x800 ∨ (0xD800 ≤ v ∧ v ≤ 0xDFFF) then
            replChar :: utf8DecodeAux fuel rest
          else Char.ofNat v :: utf8DecodeAux fuel r3
        else replChar :: utf8DecodeAux fuel rest
      | _ => replChar :: utf8DecodeAux fuel rest
    else if 0xF0 ≤ b ∧ b ≤ 0xF4 then
      match rest with
      | b2 :: b3 :: b4 :: r4 =>
        if isContByte b2 ∧ isContByte b3 ∧ isContByte b4 then
          let v := (b - 0xF0) * 262144 + (b2 - 0x80) * 4096 +
            (b3 - 0x80) * 64 + (b4 - 0x80)
          if v < 0x10000 ∨ 0x110000 ≤ v then replChar :: utf8DecodeAux fuel rest
          else Char.ofNat v :: utf8DecodeAux fuel r4
        else replChar :: utf8DecodeAux fuel rest
      | _ => replChar :: utf8DecodeAux fuel rest
    else replChar :: utf8DecodeAux fuel rest

/-- Model of `TextDecoder.decode` (non-fatal mode). -/
def utf8Decode (bs : List Nat) : Str := utf8DecodeAux (bs.length + 1) bs

theorem utf8DecodeAux_encodeChar (c : Char) (bs : List Nat) (fuel : Nat) :
    utf8DecodeAux (fuel + 1) (utf8EncodeChar c ++ bs) = c :: utf8DecodeAux fuel bs := by
  have hvn : c.toNat < 0xD800 ∨ (0xDFFF < c.toNat ∧ c.toNat < 0x110000) := c.valid
  by_cases h1 : c.toNat < 0x80
  · simp only [utf8EncodeChar, if_pos h1, List.cons_append, List.nil_append, utf8DecodeAux]
    rw [Char.ofNat_toNat]
  by_cases h2 : c.toNat < 0x800
  · simp only [utf8EncodeChar, if_neg h1, if_pos h2, List.cons_append, List.nil_append,
      utf8DecodeAux]
    rw [if_neg (by omega), if_pos (show 0xC2 ≤ 0xC0 + c.toNat / 64 ∧ 0xC0 + c.toNat / 64 ≤ 0xDF by omega),
      if_pos (show isContByte (0x80 + c.toNat % 64) by unfold isContByte; omega)]
    have heq : (0xC0 + c.toNat / 64 - 0xC0) * 64 + (0x80 + c.toNat % 64 - 0x80) = c.toNat := by
      omega
    rw [heq, Char.ofNat_toNat]
  by_cases h3 : c.toNat < 0x10000
  · simp only [utf8EncodeChar, if_neg h1, if_neg h2, if_pos h3, List.cons_append,
      List.nil_append, utf8DecodeAux]
    rw [if_neg (by omega),
      if_neg (show ¬(0xC2 ≤ 0xE0 + c.toNat / 4096 ∧ 0xE0 + c.toNat / 4096 ≤ 0xDF) by omega),
      if_pos (show 0xE0 ≤ 0xE0 + c.toNat / 4096 ∧ 0xE0 + c.toNat / 4096 ≤ 0xEF by omega),
      if_pos (show isContByte (0x80 + c.toNat / 64 % 64) ∧ isContByte (0x80 + c.toNat % 64) by
        unfold isContByte; omega)]
    have heq : (0xE0 + c.toNat / 4096 - 0xE0) * 4096 + (0x80 + c.toNat / 64 % 64 - 0x80) * 64 +
        (0x80 + c.toNat % 64 - 0x80) = c.toNat := by omega
    rw [if_neg (by omega), heq, Char.ofNat_toNat]
  · simp only [utf8EncodeChar, if_neg h1, if_neg h2, if_neg h3, List.cons_append,
      List.nil_append, utf8DecodeAux]
    rw [if_neg (by omega),
      if_neg (show ¬(0xC2 ≤ 0xF0 + c.toNat / 262144 ∧ 0xF0 + c.toNat / 262144 ≤ 0xDF) by omega),
      if_neg (show ¬(0xE0 ≤ 0xF0 + c.toNat / 262144 ∧ 0xF0 + c.toNat / 262144 ≤ 0xEF) by omega),
      if_pos (show 0xF0 ≤ 0xF0 + c.toNat / 262144 ∧ 0xF0 + c.toNat / 262144 ≤ 0xF4 by omega),
      if_pos (show isContByte (0x80 + c.toNat / 4096 % 64) ∧ isContByte (0x80 + c.toNat / 64 % 64) ∧
        isContByte (0x80 + c.toNat % 64) by unfold isContByte; omega)]
    have heq : (0xF0 + c.toNat / 262144 - 0xF0) * 262144 + (0x80 + c.toNat / 4096 % 64 - 0x80) * 4096 +
        (0x80 + c.toNat / 64 % 64 - 0x80) * 64 + (0x80 + c.toNat % 64 - 0x80) = c.toNat := by omega
    rw [if_neg (by omega), heq, Char.ofNat_toNat]

theorem utf8EncodeChar_length_pos (c : Char) : 0 < (utf8EncodeChar c).length := by
  simp only [utf8EncodeChar]
  split
  · simp
  split
  · simp
  split <;> simp

theorem utf8EncodeChar_lt_256 (c : Char) : ∀ b ∈ utf8EncodeChar c, b < 256 := by
  have hvn : c.toNat < 0xD800 ∨ (0xDFFF < c.toNat ∧ c.toNat < 0x110000) := c.valid
  intro b hb
  simp only [utf8EncodeChar] at hb
  split at hb
  · simp at hb
    omega
  split at hb
  · simp at hb
    rcases hb with h | h <;> omega
  split at hb
  · simp at hb
    rcases hb with h | h | h <;> omega
  · simp at hb
    rcases hb with h | h | h | h <;> omega

theorem utf8Encode_lt_256 (s : Str) : ∀ b ∈ utf8Encode s, b < 256 := by
  intro b hb
  simp only [utf8Encode, List.mem_flatMap] at hb
  obtain ⟨c, _, hc⟩ := hb
  exact utf8EncodeChar_lt_256 c b hc

theorem length_le_utf8Encode_length (s : Str) : s.length ≤ (utf8Encode s).length := by
  induction s with
  | nil => simp [utf8Encode]
  | cons c cs ih =>
    have := utf8EncodeChar_length_pos c
    simp only [utf8Encode, List.flatMap_cons, List.length_append, List.length_cons]
    simp only [utf8Encode] at ih
    omega

theorem utf8DecodeAux_encode (s : Str) : ∀ fuel,
    utf8DecodeAux (fuel + s.length) (utf8Encode s) = s := by
  induction s with
  | nil =>
    intro fuel
    cases fuel <;> simp [utf8Encode, utf8DecodeAux]
  | cons c cs ih =>
    intro fuel
    have hstep : fuel + (c :: cs).length = (fuel + cs.length) + 1 := by
      simp
      omega
    rw [hstep]
    show utf8DecodeAux ((fuel + cs.length) + 1) (utf8Encode (c :: cs)) = c :: cs
    have henc : utf8Encode (c :: cs) = utf8EncodeChar c ++ utf8Encode cs := by
      simp [utf8Encode]
    rw [henc, utf8DecodeAux_encodeChar, ih fuel]

theorem utf8Decode_utf8Encode (s : Str) : utf8Decode (utf8Encode s) = s := by
  unfold utf8Decode
  have hle : s.length ≤ (utf8Encode s).length := length_le_utf8Encode_length s
  have heq : (utf8Encode s).length + 1 = ((utf8Encode s).length + 1 - s.length) + s.length := by
    omega
  rw [heq, utf8DecodeAux_encode]

-- ── JSON values (the fragment produced/consumed by the codec) ────────────────

/-- JSON values, as produced by `JSON.parse`.  Numbers cover the integer
literals the codec emits and reads; fractional and exponent literals are
outside the behaviour the codec exercises. -/
inductive Json where
  | null
  | bool (b : Bool)
  | num (n : Int)
  | str (s : Str)
  | arr (elems : List Json)
  | obj (fields : List (Str × Json))
deriving Repr

/-- JavaScript truthiness of a JSON value. -/
def jsTruthy : Json → Bool
  | .null => false
  | .bool b => b
  | .num n => n ≠ 0
  | .str s => s ≠ []
  | .arr _ => true
  | .obj _ => true

/-- Last-wins property lookup on a parsed JSON object, the behaviour of
JS property access after `JSON.parse` (later duplicate keys win). -/
def jsGetFields (fields : List (Str × Json)) (k : Str) : Option Json :=
  match fields with
  | [] => none
  | (k1, v1) :: rest =>
    match jsGetFields rest k with
    | some v => some v
    | none => if k1 = k then some v1 else none

/-- Property access `json.k`: `none` models `undefined`. -/
def jsGet (j : Json) (k : Str) : Option Json :=
  match j with
  | .obj fields => jsGetFields fields k
  | _ => none

-- ── Decimal digits (JS number-to-string and the JSON number grammar) ─────────

/-- Decimal digit characters of `n`, most significant first (fuel-indexed). -/
def natToDigitsAux : Nat → Nat → Str
  | 0, _ => []
  | fuel + 1, n =>
    if n < 10 then [Char.ofNat (48 + n)]
    else natToDigitsAux fuel (n / 10) ++ [Char.ofNat (48 + n % 10)]

/-- Decimal representation of a natural number, the JS `String(n)` for
integers in plain (non-exponent) form. -/
def natToDigits (n : Nat) : Str := natToDigitsAux (n + 1) n

/-- Decimal representation of an integer. -/
def intToDigits (i : Int) : Str :=
  if i < 0 then '-' :: natToDigits i.natAbs else natToDigits i.toNat

-- ── JSON.stringify ───────────────────────────────────────────────────────────

/-- One character of `JSON.stringify` string escaping. -/
def escapeChar (c : Char) : Str :=
  if c = '"' then ['\\', '"']
  else if c = '\\' then ['\\', '\\']
  else if c.toNat < 0x20 then
    if c.toNat = 8 then ['\\', 'b']
    else if c.toNat = 9 then ['\\', 't']
    else if c.toNat = 10 then ['\\', 'n']
    else if c.toNat = 12 then ['\\', 'f']
    else if c.toNat = 13 then ['\\', 'r']
    else ['\\', 'u', '0', '0', hexDigitChar (c.toNat / 16), hexDigitChar (c.toNat % 16)]
  else [c]

/-- Applies `JSON.stringify` escaping to a string body. -/
def escChars (s : Str) : Str := s.flatMap escapeChar

/-- A quoted, escaped JSON string literal. -/
def quoteStr (s : Str) : Str := '"' :: escChars s ++ ['"']

mutual

/-- Model of `JSON.stringify` (no indentation): compact separators, insertion-order
object keys. -/
def stringifyJson : Json → Str
  | .null => ("null").toList
  | .bool true => ("true").toList
  | .bool false => ("false").toList
  | .num i => intToDigits i
  | .str s => quoteStr s
  | .arr es => '[' :: stringifyElems es
  | .obj fs => '{' :: stringifyFields fs

/-- Elements of an array literal, including the closing bracket. -/
def stringifyElems : List Json → Str
  | [] => [']']
  | [e] => stringifyJson e ++ [']']
  | e :: rest => stringifyJson e ++ ',' :: stringifyElems rest

/-- Members of an object literal, including the closing brace. -/
def stringifyFields : List (Str × Json) → Str
  | [] => ['}']
  | [(k, v)] => quoteStr k ++ ':' :: stringifyJson v ++ ['}']
  | (k, v) :: rest => quoteStr k ++ ':' :: stringifyJson v ++ ',' :: stringifyFields rest

end

-- ── JSON.parse ───────────────────────────────────────────────────────────────

/-- JSON insignificant whitespace. -/
def jsonWsChar (c : Char) : Bool :=
  c = ' ' || c.toNat = 9 || c.toNat = 10 || c.toNat = 13

/-- Skip leading JSON whitespace. -/
def skipWs (s : Str) : Str := s.dropWhile jsonWsChar

/-- A decimal digit character. -/
def isDigitCh (c : Char) : Prop := 48 ≤ c.toNat ∧ c.toNat ≤ 57

instance (c : Char) : Decidable (isDigitCh c) := by
  unfold isDigitCh
  infer_instance

/-- The head of the remaining input, if any, is not a decimal digit. -/
def headNotDigit : Str → Prop
  | [] => True
  | c :: _ => ¬isDigitCh c

instance (s : Str) : Decidable (headNotDigit s) := by
  cases s <;> (unfold headNotDigit; infer_instance)

/-- Maximal-munch digit run with accumulator. -/
def parseDigitsAcc (acc : Nat) : Str → Nat × Str
  | [] => (acc, [])
  | c :: rest =>
    if isDigitCh c then parseDigitsAcc (acc * 10 + (c.toNat - 48)) rest
    else (acc, c :: rest)

/-- JSON unsigned-integer literal: digits with the no-leading-zero rule. -/
def parsePosNat : Str → Option (Nat × Str)
  | [] => none
  | c :: rest =>
    if c.toNat = 48 then
      match rest with
      | c2 :: _ => if isDigitCh c2 then none else some (0, rest)
      | [] => some (0, [])
    else if isDigitCh c then some (parseDigitsAcc 0 (c :: rest))
    else none

/-- One escape character after a backslash (other than `\\u`). -/
def unescapeChar : Char → Option Char
  | '"' => some '"'
  | '\\' => some '\\'
  | '/' => some '/'
  | 'b' => some (Char.ofNat 8)
  | 'f' => some (Char.ofNat 12)
  | 'n' => some (Char.ofNat 10)
  | 'r' => some (Char.ofNat 13)
  | 't' => some (Char.ofNat 9)
  | _ => none

/-- JSON string body after the opening quote: content and remainder after
the closing quote.  A `\\u` escape of an invalid scalar value degrades to
U+FFFD (lone surrogates have no `Char` counterpart). -/
def parseStringRest : Nat → Str → Option (Str × Str)
  | 0, _ => none
  | _, [] => none
  | fuel + 1, c :: rest =>
    if c = '"' then some ([], rest)
    else if c = '\\' then
      match rest with
      | 'u' :: h1 :: h2 :: h3 :: h4 :: r =>
        match hexDigitVal h1, hexDigitVal h2, hexDigitVal h3, hexDigitVal h4 with
        | some d1, some d2, some d3, some d4 =>
          let v := ((d1 * 16 + d2) * 16 + d3) * 16 + d4
          let ch := if v < 0xD800 ∨ (0xDFFF < v ∧ v < 0x110000) then Char.ofNat v else replChar
          (parseStringRest fuel r).map (fun p => (ch :: p.1, p.2))
        | _, _, _, _ => none
      | e :: r =>
        match unescapeChar e with
        | some ch => (parseStringRest fuel r).map (fun p => (ch :: p.1, p.2))
        | none => none
      | [] => none
    else if c.toNat < 0x20 then none
    else (parseStringRest fuel rest).map (fun p => (c :: p.1, p.2))

mutual

/-- JSON value parser (fuel-indexed recursive descent). -/
def parseValue : Nat → Str → Option (Json × Str)
  | 0, _ => none
  | fuel + 1, s =>
    match skipWs s with
    | [] => none
    | c :: r =>
      if c = '{' then
        match skipWs r with
        | '}' :: r2 => some (.obj [], r2)
        | r2 => (parseMembers fuel r2).map (fun p => (.obj p.1, p.2))
      else if c = '[' then
        match skipWs r with
        | ']' :: r2 => some (.arr [], r2)
        | r2 => (parseElems fuel r2).map (fun p => (.arr p.1, p.2))
      else if c = '"' then
        (parseStringRest fuel r).map (fun p => (.str p.1, p.2))
      else if c = 'n' then
        match r with
        | 'u' :: 'l' :: 'l' :: r2 => some (.null, r2)
        | _ => none
      else if c = 't' then
        match r with
        | 'r' :: 'u' :: 'e' :: r2 => some (.bool true, r2)
        | _ => none
      else if c = 'f' then
        match r with
        | 'a' :: 'l' :: 's' :: 'e' :: r2 => some (.bool false, r2)
        | _ => none
      else if c = '-' then
        (parsePosNat r).map (fun p => (.num (-(p.1 : Int)), p.2))
      else if isDigitCh c then
        (parsePosNat (c :: r)).map (fun p => (.num (p.1 : Int), p.2))
      else none

/-- Object members from the first key, including the closing brace. -/
def parseMembers : Nat → Str → Option (List (Str × Json) × Str)
  | 0, _ => none
  | fuel + 1, s =>
    match skipWs s with
    | '"' :: r =>
      match parseStringRest fuel r with
      | none => none
      | some (k, r1) =>
        match skipWs r1 with
        | ':' :: r2 =>
          match parseValue fuel r2 with
          | none => none
          | some (v, r3) =>
            match skipWs r3 with
            | ',' :: r4 =>
              match parseMembers fuel r4 with
              | none => none
              | some (fs, r5) => some ((k, v) :: fs, r5)
            | '}' :: r4 => some ([(k, v)], r4)
            | _ => none
        | _ => none
    | _ => none

/-- Array elements from the first element, including the closing bracket. -/
def parseElems : Nat → Str → Option (List Json × Str)
  | 0, _ => none
  | fuel + 1, s =>
    match parseValue fuel s with
    | none => none
    | some (v, r1) =>
      match skipWs r1 with
      | ',' :: r2 =>
        match parseElems fuel r2 with
        | none => none
        | some (es, r3) => some (v :: es, r3)
      | ']' :: r2 => some ([v], r2)
      | _ => none

end

/-- Model of `JSON.parse`: a whole-input JSON document; `none` models a thrown
`SyntaxError`. -/
def jsonParse (s : Str) : Option Json :=
  match parseValue (s.length + 1) s with
  | some (v, rest) => if skipWs rest = [] then some v else none
  | none => none

-- ── Number printing/parsing inversion ────────────────────────────────────────

theorem toNat_ofNat_digit (d : Nat) (h : d < 10) :
    (Char.ofNat (48 + d)).toNat = 48 + d := by
  revert h
  revert d
  decide

theorem parseDigitsAcc_stop (acc : Nat) (s : Str) (h : headNotDigit s) :
    parseDigitsAcc acc s = (acc, s) := by
  cases s with
  | nil => rfl
  | cons c rest =>
    simp only [headNotDigit] at h
    simp [parseDigitsAcc, if_neg h]

theorem parseDigitsAcc_digitsAux : ∀ fuel n acc rest, n < fuel →
    parseDigitsAcc acc (natToDigitsAux fuel n ++ rest) =
      parseDigitsAcc (acc * 10 ^ (natToDigitsAux fuel n).length + n) rest := by
  intro fuel
  induction fuel with
  | zero => omega
  | succ fuel ih =>
    intro n acc rest hn
    by_cases h10 : n < 10
    · have hch : (Char.ofNat (48 + n)).toNat = 48 + n := toNat_ofNat_digit n h10
      simp only [natToDigitsAux, if_pos h10, List.cons_append, List.nil_append,
        parseDigitsAcc, List.length_cons, List.length_nil]
      rw [if_pos (show isDigitCh (Char.ofNat (48 + n)) by unfold isDigitCh; omega)]
      rw [hch]
      norm_num
    · have hd : n / 10 < fuel := by omega
      have hch : (Char.ofNat (48 + n % 10)).toNat = 48 + n % 10 :=
        toNat_ofNat_digit (n % 10) (by omega)
      simp only [natToDigitsAux, if_neg h10, List.append_assoc, List.cons_append,
        List.nil_append]
      rw [ih (n / 10) acc (Char.ofNat (48 + n % 10) :: rest) hd]
      simp only [parseDigitsAcc]
      rw [if_pos (show isDigitCh (Char.ofNat (48 + n % 10)) by unfold isDigitCh; omega)]
      rw [hch]
      simp only [List.length_append, List.length_cons, List.length_nil]
      congr 1
      have hdm : n / 10 * 10 + n % 10 = n := by omega
      set K := 10 ^ (natToDigitsAux fuel (n / 10)).length with hK
      have hpow : 10 ^ ((natToDigitsAux fuel (n / 10)).length + (0 + 1)) = K * 10 := by
        rw [hK, pow_succ]
      rw [hpow]
      have hexp : (acc * K + n / 10) * 10 + (48 + n % 10 - 48) =
          acc * (K * 10) + (n / 10 * 10 + n % 10) := by
        have : 48 + n % 10 - 48 = n % 10 := by omega
        rw [this]
        ring
      rw [hexp, hdm]

theorem natToDigitsAux_head : ∀ fuel n, n < fuel →
    ∃ c tail, natToDigitsAux fuel n = c :: tail ∧ 48 ≤ c.toNat ∧ c.toNat ≤ 57 ∧
      (0 < n → 49 ≤ c.toNat) := by
  intro fuel
  induction fuel with
  | zero => omega
  | succ fuel ih =>
    intro n hn
    by_cases h10 : n < 10
    · refine ⟨Char.ofNat (48 + n), [], by simp [natToDigitsAux, if_pos h10], ?_, ?_, ?_⟩ <;>
        rw [toNat_ofNat_digit n h10] <;> omega
    · obtain ⟨c, tail, heq, h1, h2, h3⟩ := ih (n / 10) (by omega)
      refine ⟨c, tail ++ [Char.ofNat (48 + n % 10)], ?_, h1, h2, fun _ => h3 (by omega)⟩
      simp [natToDigitsAux, if_neg h10, heq]

theorem parsePosNat_natToDigits (n : Nat) (rest : Str) (h : headNotDigit rest) :
    parsePosNat (natToDigits n ++ rest) = some (n, rest) := by
  by_cases hz : n = 0
  · subst hz
    show parsePosNat (natToDigitsAux 1 0 ++ rest) = some (0, rest)
    simp only [natToDigitsAux, if_pos (by omega : (0:Nat) < 10), List.cons_append,
      List.nil_append, parsePosNat]
    rw [if_pos (by decide : (Char.ofNat (48 + 0)).toNat = 48)]
    cases rest with
    | nil => rfl
    | cons c2 r2 =>
      simp only [headNotDigit] at h
      simp [if_neg h]
  · obtain ⟨c, tail, heq, h1, h2, h3⟩ := natToDigitsAux_head (n + 1) n (by omega)
    have h49 : 49 ≤ c.toNat := h3 (by omega)
    show parsePosNat (natToDigitsAux (n + 1) n ++ rest) = some (n, rest)
    rw [heq]
    simp only [List.cons_append, parsePosNat]
    rw [if_neg (by omega), if_pos (show isDigitCh c by unfold isDigitCh; omega)]
    have hres := parseDigitsAcc_digitsAux (n + 1) n 0 rest (by omega)
    rw [heq] at hres
    simp only [List.cons_append] at hres
    rw [hres, Nat.zero_mul, Nat.zero_add, parseDigitsAcc_stop n rest h]

-- ── String escaping inversion ────────────────────────────────────────────────

theorem jsonWsChar_false (c : Char) (h1 : c.toNat ≠ 32) (h2 : c.toNat ≠ 9)
    (h3 : c.toNat ≠ 10) (h4 : c.toNat ≠ 13) : jsonWsChar c = false := by
  have hsp : c ≠ ' ' := fun he => h1 (by rw [he]; rfl)
  simp only [jsonWsChar, Bool.or_eq_false_iff, decide_eq_false_iff_not]
  exact ⟨⟨⟨hsp, h2⟩, h3⟩, h4⟩

theorem skipWs_cons (c : Char) (r : Str) (h : jsonWsChar c = false) :
    skipWs (c :: r) = c :: r := by
  simp [skipWs, List.dropWhile_cons, h]

theorem escapeChar_length_pos (c : Char) : 0 < (escapeChar c).length := by
  simp only [escapeChar]
  split
  · simp
  split
  · simp
  split
  · split
    · simp
    split
    · simp
    split
    · simp
    split
    · simp
    split <;> simp
  · simp

theorem parseStringRest_escChars (s : Str) : ∀ fuel rest,
    (escChars s).length < fuel →
    parseStringRest fuel (escChars s ++ '"' :: rest) = some (s, rest) := by
  induction s with
  | nil =>
    intro fuel rest hf
    obtain ⟨m, rfl⟩ : ∃ m, fuel = m + 1 := ⟨fuel - 1, by omega⟩
    simp [escChars, parseStringRest]
  | cons c cs ih =>
    intro fuel rest hf
    have hk : 0 < (escapeChar c).length := escapeChar_length_pos c
    have hlen : (escChars (c :: cs)).length =
        (escapeChar c).length + (escChars cs).length := by
      simp [escChars]
    obtain ⟨m, rfl⟩ : ∃ m, fuel = m + 1 := ⟨fuel - 1, by omega⟩
    have hcs : (escChars cs).length < m := by omega
    have hstep : escChars (c :: cs) ++ '"' :: rest =
        escapeChar c ++ (escChars cs ++ '"' :: rest) := by
      simp [escChars]
    rw [hstep]
    by_cases hq : c = '"'
    · subst hq
      rw [show escapeChar '"' = ['\\', '"'] from rfl]
      simp [parseStringRest, unescapeChar, ih m rest hcs]
    by_cases hbs : c = '\\'
    · subst hbs
      rw [show escapeChar '\\' = ['\\', '\\'] from rfl]
      simp [parseStringRest, unescapeChar, ih m rest hcs]
    by_cases hctl : c.toNat < 0x20
    · have hofn : Char.ofNat c.toNat = c := Char.ofNat_toNat c
      by_cases h8 : c.toNat = 8
      · rw [show escapeChar c = ['\\', 'b'] by
          simp [escapeChar, hq, hbs, hctl, h8]]
        rw [h8] at hofn
        simp [parseStringRest, unescapeChar, ih m rest hcs]
        exact hofn
      by_cases h9 : c.toNat = 9
      · rw [show escapeChar c = ['\\', 't'] by
          simp [escapeChar, hq, hbs, hctl, h8, h9]]
        rw [h9] at hofn
        simp [parseStringRest, unescapeChar, ih m rest hcs]
        exact hofn
      by_cases h10 : c.toNat = 10
      · rw [show escapeChar c = ['\\', 'n'] by
          simp [escapeChar, hq, hbs, hctl, h8, h9, h10]]
        rw [h10] at hofn
        simp [parseStringRest, unescapeChar, ih m rest hcs]
        exact hofn
      by_cases h12 : c.toNat = 12
      · rw [show escapeChar c = ['\\', 'f'] by
          simp [escapeChar, hq, hbs, hctl, h8, h9, h10, h12]]
        rw [h12] at hofn
        simp [parseStringRest, unescapeChar, ih m rest hcs]
        exact hofn
      by_cases h13 : c.toNat = 13
      · rw [show escapeChar c = ['\\', 'r'] by
          simp [escapeChar, hq, hbs, hctl, h8, h9, h10, h12, h13]]
        rw [h13] at hofn
        simp [parseStringRest, unescapeChar, ih m rest hcs]
        exact hofn
      · rw [show escapeChar c =
            ['\\', 'u', '0', '0', hexDigitChar (c.toNat / 16), hexDigitChar (c.toNat % 16)] by
          simp [escapeChar, hq, hbs, hctl, h8, h9, h10, h12, h13]]
        have hv1 : hexDigitVal (hexDigitChar (c.toNat / 16)) = some (c.toNat / 16) :=
          hexDigitVal_hexDigitChar _ (by omega)
        have hv2 : hexDigitVal (hexDigitChar (c.toNat % 16)) = some (c.toNat % 16) :=
          hexDigitVal_hexDigitChar _ (by omega)
        have hval : c.toNat / 16 * 16 + c.toNat % 16 = c.toNat := by
          omega
        have hrange : c.toNat < 55296 ∨ (57343 < c.toNat ∧ c.toNat < 1114112) := by omega
        have h0 : hexDigitVal '0' = some 0 := rfl
        simp [parseStringRest, h0, hv1, hv2, hval, hrange, ih m rest hcs, hofn]
    · rw [show escapeChar c = [c] by simp [escapeChar, hq, hbs, hctl]]
      simp [parseStringRest, hq, hbs, hctl, ih m rest hcs]

-- ── Value serialisation inversion ────────────────────────────────────────────

/-- A JSON value whose serialised text parses back to the value itself,
whatever follows it (as long as no digit immediately follows). -/
def ParsesBack (v : Json) : Prop :=
  ∀ fuel rest, (stringifyJson v).length < fuel → headNotDigit rest →
    parseValue fuel (stringifyJson v ++ rest) = some (v, rest)

theorem parsesBack_str (s : Str) : ParsesBack (.str s) := by
  intro fuel rest hf _
  obtain ⟨m, rfl⟩ : ∃ m, fuel = m + 1 := ⟨fuel - 1, by omega⟩
  have hsq : stringifyJson (.str s) = '"' :: (escChars s ++ ['"']) := rfl
  rw [hsq] at hf ⊢
  have hlist : ('"' :: (escChars s ++ ['"'])) ++ rest = '"' :: (escChars s ++ '"' :: rest) := by
    simp
  rw [hlist]
  have hws : skipWs ('"' :: (escChars s ++ '"' :: rest)) = '"' :: (escChars s ++ '"' :: rest) :=
    skipWs_cons _ _ (by decide)
  have hlen : (escChars s).length < m := by
    simp at hf
    omega
  simp [parseValue, hws, parseStringRest_escChars s m rest hlen]

theorem parsesBack_natNum (n : Nat) : ParsesBack (.num (n : Int)) := by
  intro fuel rest hf hnd
  obtain ⟨m, rfl⟩ : ∃ m, fuel = m + 1 := ⟨fuel - 1, by omega⟩
  have hnum : stringifyJson (.num (n : Int)) = natToDigits n := by
    simp [stringifyJson, intToDigits]
  rw [hnum] at hf ⊢
  obtain ⟨c, tail, heq, h48, h57, _⟩ := natToDigitsAux_head (n + 1) n (by omega)
  have heq' : natToDigits n = c :: tail := heq
  rw [heq']
  have hws : skipWs (c :: (tail ++ rest)) = c :: (tail ++ rest) :=
    skipWs_cons c (tail ++ rest) (jsonWsChar_false c (by omega) (by omega) (by omega) (by omega))
  have hne : ∀ d : Char, d.toNat < 48 ∨ 57 < d.toNat → ¬(c = d) := by
    intro d hd he
    rw [he] at h48 h57
    omega
  have hdig : isDigitCh c := ⟨h48, h57⟩
  have hpn : parsePosNat (c :: (tail ++ rest)) = some (n, rest) := by
    have := parsePosNat_natToDigits n rest hnd
    rw [heq'] at this
    simpa using this
  simp only [parseValue, List.cons_append, hws]
  rw [if_neg (hne '{' (by decide)), if_neg (hne '[' (by decide)),
    if_neg (hne '"' (by decide)), if_neg (hne 'n' (by decide)),
    if_neg (hne 't' (by decide)), if_neg (hne 'f' (by decide)),
    if_neg (hne '-' (by decide)), if_pos hdig, hpn]
  rfl

theorem parseMembers_stringifyFields (fs : List (Str × Json)) :
    fs ≠ [] → (∀ f ∈ fs, ParsesBack f.2) → ∀ fuel rest,
    (stringifyFields fs).length < fuel →
    parseMembers fuel (stringifyFields fs ++ rest) = some (fs, rest) := by
  induction fs with
  | nil => intro h; exact absurd rfl h
  | cons kv fs' ih =>
    intro _ hgood fuel rest hf
    obtain ⟨k, v⟩ := kv
    obtain ⟨m, rfl⟩ : ∃ m, fuel = m + 1 := ⟨fuel - 1, by omega⟩
    have hgv : ParsesBack v := hgood (k, v) (List.mem_cons_self _ _)
    cases fs' with
    | nil =>
      have htext : stringifyFields [(k, v)] ++ rest =
          '"' :: (escChars k ++ '"' :: (':' :: (stringifyJson v ++ '}' :: rest))) := by
        simp [stringifyFields, quoteStr]
      have hlenf : (stringifyFields [(k, v)]).length =
          (escChars k).length + (stringifyJson v).length + 4 := by
        simp [stringifyFields, quoteStr]
        omega
      rw [htext]
      have hws1 : skipWs ('"' :: (escChars k ++ '"' :: (':' :: (stringifyJson v ++ '}' :: rest)))) =
          '"' :: (escChars k ++ '"' :: (':' :: (stringifyJson v ++ '}' :: rest))) :=
        skipWs_cons _ _ (by decide)
      have hstr := parseStringRest_escChars k m (':' :: (stringifyJson v ++ '}' :: rest))
        (by omega)
      have hws2 : skipWs (':' :: (stringifyJson v ++ '}' :: rest)) =
          ':' :: (stringifyJson v ++ '}' :: rest) := skipWs_cons _ _ (by decide)
      have hval := hgv m ('}' :: rest) (by omega) (by simp [headNotDigit, isDigitCh])
      have hws3 : skipWs ('}' :: rest) = '}' :: rest := skipWs_cons _ _ (by decide)
      simp [parseMembers, hws1, hstr, hws2, hval, hws3]
    | cons kv2 fs'' =>
      have htext : stringifyFields ((k, v) :: kv2 :: fs'') ++ rest =
          '"' :: (escChars k ++ '"' :: (':' :: (stringifyJson v ++
            ',' :: (stringifyFields (kv2 :: fs'') ++ rest)))) := by
        simp [stringifyFields, quoteStr]
      have hlenf : (stringifyFields ((k, v) :: kv2 :: fs'')).length =
          (escChars k).length + (stringifyJson v).length +
            (stringifyFields (kv2 :: fs'')).length + 4 := by
        simp [stringifyFields, quoteStr]
        omega
      rw [htext]
      have hws1 : skipWs ('"' :: (escChars k ++ '"' :: (':' :: (stringifyJson v ++
          ',' :: (stringifyFields (kv2 :: fs'') ++ rest))))) =
          '"' :: (escChars k ++ '"' :: (':' :: (stringifyJson v ++
            ',' :: (stringifyFields (kv2 :: fs'') ++ rest)))) :=
        skipWs_cons _ _ (by decide)
      have hstr := parseStringRest_escChars k m
        (':' :: (stringifyJson v ++ ',' :: (stringifyFields (kv2 :: fs'') ++ rest))) (by omega)
      have hws2 : skipWs (':' :: (stringifyJson v ++ ',' :: (stringifyFields (kv2 :: fs'') ++ rest))) =
          ':' :: (stringifyJson v ++ ',' :: (stringifyFields (kv2 :: fs'') ++ rest)) :=
        skipWs_cons _ _ (by decide)
      have hval := hgv m (',' :: (stringifyFields (kv2 :: fs'') ++ rest)) (by omega)
        (by simp [headNotDigit, isDigitCh])
      have hws3 : skipWs (',' :: (stringifyFields (kv2 :: fs'') ++ rest)) =
          ',' :: (stringifyFields (kv2 :: fs'') ++ rest) := skipWs_cons _ _ (by decide)
      have hrec := ih (by simp) (fun f hf' => hgood f (List.mem_cons_of_mem _ hf')) m rest
        (by omega)
      simp [parseMembers, hws1, hstr, hws2, hval, hws3, hrec]

theorem stringifyFields_head (fs : List (Str × Json)) (h : fs ≠ []) :
    ∃ T, stringifyFields fs = '"' :: T := by
  cases fs with
  | nil => exact absurd rfl h
  | cons kv fs' =>
    obtain ⟨k, v⟩ := kv
    cases fs' with
    | nil =>
      exact ⟨escChars k ++ '"' :: ':' :: (stringifyJson v ++ ['}']),
        by simp [stringifyFields, quoteStr]⟩
    | cons kv2 fs'' =>
      exact ⟨escChars k ++ '"' :: ':' :: (stringifyJson v ++ ',' :: stringifyFields (kv2 :: fs'')),
        by simp [stringifyFields, quoteStr]⟩

theorem parseValue_stringifyObj (fs : List (Str × Json)) (hne : fs ≠ [])
    (hgood : ∀ f ∈ fs, ParsesBack f.2) : ∀ fuel rest,
    (stringifyJson (.obj fs)).length < fuel →
    parseValue fuel (stringifyJson (.obj fs) ++ rest) = some (.obj fs, rest) := by
  intro fuel rest hf
  obtain ⟨m, rfl⟩ : ∃ m, fuel = m + 1 := ⟨fuel - 1, by omega⟩
  obtain ⟨T, hT⟩ := stringifyFields_head fs hne
  have hobj : stringifyJson (.obj fs) = '{' :: stringifyFields fs := rfl
  rw [hobj] at hf ⊢
  have htext : ('{' :: stringifyFields fs) ++ rest = '{' :: (stringifyFields fs ++ rest) := by
    simp
  rw [htext]
  have hws1 : skipWs ('{' :: (stringifyFields fs ++ rest)) =
      '{' :: (stringifyFields fs ++ rest) := skipWs_cons _ _ (by decide)
  have hcons : stringifyFields fs ++ rest = '"' :: (T ++ rest) := by
    rw [hT]
    simp
  have hws2 : skipWs (stringifyFields fs ++ rest) = stringifyFields fs ++ rest := by
    rw [hcons]
    exact skipWs_cons _ _ (by decide)
  have hmem := parseMembers_stringifyFields fs hne hgood m rest (by
    simp at hf
    omega)
  simp only [parseValue, hws1]
  rw [if_true]
  rw [hcons] at hws2 hmem ⊢
  simp [hws2, hmem]

theorem jsonParse_stringifyObj (fs : List (Str × Json)) (hne : fs ≠ [])
    (hgood : ∀ f ∈ fs, ParsesBack f.2) :
    jsonParse (stringifyJson (.obj fs)) = some (.obj fs) := by
  unfold jsonParse
  have h := parseValue_stringifyObj fs hne hgood ((stringifyJson (.obj fs)).length + 1) []
    (by omega)
  rw [List.append_nil] at h
  rw [h]
  simp [skipWs]

-- ── Cell data codec (src/unnamed/part_002, lib/codec.ts) ─────────────────────

/-- Serialisation of `UnlockType` into the `ut` JSON field. -/
def unlockTypeStr : UnlockType → Str
  | .blockHeight => "blockHeight".toList
  | .timestamp => "timestamp".toList

/-- Model of `VaultCellPayload`: the decoded form of vault cell data (encoder input,
with the optional fields as options). -/
structure VaultCellPayload where
  ownerAddress : Str
  ownerName : Option Str
  unlockType : UnlockType
  unlockValue : Nat
  memo : Option Str

/-- An optional compact-key field: present only when the TS value is truthy,
so an empty string is omitted exactly like an absent one. -/
def optField (key : Str) (v : Option Str) : List (Str × Json) :=
  match v with
  | none => []
  | some s => if s = [] then [] else [(key, .str s)]

/-- The JSON object built by `encodeVaultCellData`: keys in insertion order
`oa`, `ut`, `uv`, then optional `on` and `m`. -/
def vaultJsonObj (p : VaultCellPayload) : Json :=
  .obj ([(("oa").toList, .str p.ownerAddress),
    (("ut").toList, .str (unlockTypeStr p.unlockType)),
    (("uv").toList, .num (p.unlockValue : Int))] ++
    optField (("on").toList) p.ownerName ++ optField (("m").toList) p.memo)

/-- The constant `MAGIC_HEX = "49564c54"`, ASCII `IVLT`. -/
def MAGIC_HEX : Str := "49564c54".toList

/-- The constant `VERSION = 0x01`. -/
def VERSION : Nat := 1

/-- The characters of `VERSION.toString(16).padStart(2, "0")`. -/
def versionHexChars : Str := "01".toList

/-- Model of `encodeVaultCellData`: `0x` + magic (4 bytes) + version (1 byte) + the
UTF-8 bytes of the compact JSON payload, all hex-encoded. -/
def encodeVaultCellData (p : VaultCellPayload) : Str :=
  '0' :: 'x' :: (MAGIC_HEX ++ versionHexChars ++
    bytesToHexChars (utf8Encode (stringifyJson (vaultJsonObj p))))

/-- The runtime shape `decodeVaultCellData` actually returns: the TS type
annotations promise strings and numbers, but the decoder copies whatever
JSON values are present (`undefined`, modelled as `none`, when absent). -/
structure DecodedVault where
  ownerAddress : Json
  ownerName : Option Json
  unlockType : Option Json
  unlockValue : Option Json
  memo : Option Json
deriving Repr

/-- Computes `v || ""`: the value when truthy, otherwise the empty string. -/
def truthyOrEmptyStr (v : Option Json) : Json :=
  match v with
  | some j => if jsTruthy j then j else .str []
  | none => .str []

/-- Computes `v || undefined`: the value when truthy, otherwise `undefined`. -/
def truthyOrNone (v : Option Json) : Option Json :=
  match v with
  | some j => if jsTruthy j then some j else none
  | none => none

/-- Field extraction of `decodeVaultCellData` from the parsed JSON value.
Property access on `null` throws, which the surrounding `try` turns into
`null`; on any other non-object value every access yields `undefined`. -/
def vaultFromJson : Json → Option DecodedVault
  | .null => none
  | j =>
    some {
      ownerAddress := truthyOrEmptyStr (jsGet j (("oa").toList))
      ownerName := truthyOrNone (jsGet j (("on").toList))
      unlockType := jsGet j (("ut").toList)
      unlockValue := jsGet j (("uv").toList)
      memo := truthyOrNone (jsGet j (("m").toList)) }

/-- Model of `decodeVaultCellData`: strip `0x`, check length, magic (case-insensitive)
and version, hex-decode the body, UTF-8 decode, `JSON.parse`, then extract
fields; `none` models the `null` result. -/
def decodeVaultCellData (hexStr : Str) : Option DecodedVault :=
  let data := if hexStr.take 2 = ['0', 'x'] then hexStr.drop 2 else hexStr
  if data.length < 12 then none
  else if ¬((data.take 8).map Char.toLower = MAGIC_HEX) then none
  else if ¬(parseIntHex2 ((data.drop 8).take 2) = some VERSION) then none
  else
    match jsonParse (utf8Decode (hexCharsToBytes (data.drop 10))) with
    | none => none
    | some j => vaultFromJson j

/-- Model of `isVaultCell`: strip `0x` and compare the first 8 hex characters,
lower-cased, against the magic. -/
def isVaultCell (hexStr : Str) : Bool :=
  let data := if hexStr.take 2 = ['0', 'x'] then hexStr.drop 2 else hexStr
  decide (8 ≤ data.length) && decide ((data.take 8).map Char.toLower = MAGIC_HEX)

/-- The constant `VAULT_DATA_PREFIX = "0x" + MAGIC_HEX + "01"`, the indexer
`output_data` filter value. -/
def vaultDataPrefixChars : Str := '0' :: 'x' :: (MAGIC_HEX ++ versionHexChars)

/-- Model of `calculateDataSize`: byte length of the encoded cell data. -/
def calculateDataSize (p : VaultCellPayload) : Nat :=
  ((encodeVaultCellData p).length - 2) / 2

/-- Model of `calculateMinCapacityCKB`: 8 (capacity field) + 53 (secp256k1-blake160
lock script) + data size + 2 (margin). -/
def calculateMinCapacityCKB (p : VaultCellPayload) : Nat :=
  8 + 53 + calculateDataSize p + 2

/-- The canonical image of a well-typed payload inside `DecodedVault`. -/
def payloadAsDecoded (p : VaultCellPayload) : DecodedVault where
  ownerAddress := .str p.ownerAddress
  ownerName := p.ownerName.map .str
  unlockType := some (.str (unlockTypeStr p.unlockType))
  unlockValue := some (.num (p.unlockValue : Int))
  memo := p.memo.map .str

/-- Valid payloads: optional fields, when present, are non-empty (an empty
string is dropped by the encoder), and the unlock value is in the range
where the JS number-to-string model is exact. -/
def ValidVaultPayload (p : VaultCellPayload) : Prop :=
  p.ownerName ≠ some [] ∧ p.memo ≠ some [] ∧ p.unlockValue < 2 ^ 53

instance (p : VaultCellPayload) : Decidable (ValidVaultPayload p) := by
  unfold ValidVaultPayload
  infer_instance

theorem truthyOrEmptyStr_str (s : Str) : truthyOrEmptyStr (some (.str s)) = .str s := by
  by_cases h : s = [] <;> simp [truthyOrEmptyStr, jsTruthy, h]

theorem vaultFromJson_vaultJsonObj (p : VaultCellPayload)
    (hon : p.ownerName ≠ some []) (hm : p.memo ≠ some []) :
    vaultFromJson (vaultJsonObj p) = some (payloadAsDecoded p) := by
  rcases hone : p.ownerName with _ | s <;> rcases hme : p.memo with _ | t
  · simp [vaultJsonObj, optField, hone, hme, vaultFromJson, jsGet, jsGetFields,
      truthyOrEmptyStr_str, payloadAsDecoded, truthyOrNone]
  · have ht : ¬(t = []) := by
      rw [hme] at hm
      intro h
      rw [h] at hm
      exact hm rfl
    simp [vaultJsonObj, optField, hone, hme, vaultFromJson, jsGet, jsGetFields,
      truthyOrEmptyStr_str, payloadAsDecoded, truthyOrNone, jsTruthy, ht]
  · have hs : ¬(s = []) := by
      rw [hone] at hon
      intro h
      rw [h] at hon
      exact hon rfl
    simp [vaultJsonObj, optField, hone, hme, vaultFromJson, jsGet, jsGetFields,
      truthyOrEmptyStr_str, payloadAsDecoded, truthyOrNone, jsTruthy, hs]
  · have hs : ¬(s = []) := by
      rw [hone] at hon
      intro h
      rw [h] at hon
      exact hon rfl
    have ht : ¬(t = []) := by
      rw [hme] at hm
      intro h
      rw [h] at hm
      exact hm rfl
    simp [vaultJsonObj, optField, hone, hme, vaultFromJson, jsGet, jsGetFields,
      truthyOrEmptyStr_str, payloadAsDecoded, truthyOrNone, jsTruthy, hs, ht]

theorem optField_parsesBack (k : Str) (v : Option Str) :
    ∀ f ∈ optField k v, ParsesBack f.2 := by
  intro f hf
  rcases v with _ | s
  · simp [optField] at hf
  · simp only [optField] at hf
    by_cases hs : s = []
    · rw [if_pos hs] at hf
      simp at hf
    · rw [if_neg hs] at hf
      simp at hf
      rw [hf]
      exact parsesBack_str _

theorem vaultJsonObj_fields_ne_nil (p : VaultCellPayload) :
    ∃ fs, vaultJsonObj p = .obj fs ∧ fs ≠ [] ∧ ∀ f ∈ fs, ParsesBack f.2 := by
  refine ⟨_, rfl, by simp, ?_⟩
  intro f hf
  simp only [List.append_assoc, List.mem_append, List.mem_cons,
    List.not_mem_nil, or_false] at hf
  rcases hf with (h | h | h) | h | h
  · rw [h]
    exact parsesBack_str _
  · rw [h]
    exact parsesBack_str _
  · rw [h]
    exact parsesBack_natNum _
  · exact optField_parsesBack _ _ f h
  · exact optField_parsesBack _ _ f h

theorem jsonParse_vaultJsonObj (p : VaultCellPayload) :
    jsonParse (stringifyJson (vaultJsonObj p)) = some (vaultJsonObj p) := by
  obtain ⟨fs, hobj, hne, hgood⟩ := vaultJsonObj_fields_ne_nil p
  rw [hobj]
  exact jsonParse_stringifyObj fs hne hgood

theorem bytesToHexChars_length (bs : List Nat) :
    (bytesToHexChars bs).length = 2 * bs.length := by
  induction bs with
  | nil => rfl
  | cons b rest ih =>
    have hstep : bytesToHexChars (b :: rest) = byteHexChars b ++ bytesToHexChars rest := by
      simp [bytesToHexChars]
    rw [hstep, List.length_append, ih]
    simp [byteHexChars]
    omega

theorem decode_encode_valid (p : VaultCellPayload) (hval : ValidVaultPayload p) :
    decodeVaultCellData (encodeVaultCellData p) = some (payloadAsDecoded p) := by
  obtain ⟨hon, hm, -⟩ := hval
  have hBlt : ∀ b ∈ utf8Encode (stringifyJson (vaultJsonObj p)), b < 256 :=
    utf8Encode_lt_256 _
  have hBpos : 1 ≤ (utf8Encode (stringifyJson (vaultJsonObj p))).length := by
    have hc : stringifyJson (vaultJsonObj p) =
        '{' :: stringifyFields ([(("oa").toList, .str p.ownerAddress),
          (("ut").toList, .str (unlockTypeStr p.unlockType)),
          (("uv").toList, .num (p.unlockValue : Int))] ++
          optField (("on").toList) p.ownerName ++ optField (("m").toList) p.memo) := rfl
    rw [hc]
    simp only [utf8Encode, List.flatMap_cons, List.length_append]
    have := utf8EncodeChar_length_pos '{'
    omega
  have hrt : hexCharsToBytes (bytesToHexChars (utf8Encode (stringifyJson (vaultJsonObj p)))) =
      utf8Encode (stringifyJson (vaultJsonObj p)) :=
    hexCharsToBytes_bytesToHexChars _ hBlt
  have hutf : utf8Decode (utf8Encode (stringifyJson (vaultJsonObj p))) =
      stringifyJson (vaultJsonObj p) := utf8Decode_utf8Encode _
  have hjson := jsonParse_vaultJsonObj p
  have hvfj := vaultFromJson_vaultJsonObj p hon hm
  set B := utf8Encode (stringifyJson (vaultJsonObj p)) with hB
  have henc : encodeVaultCellData p =
      '0' :: 'x' :: (MAGIC_HEX ++ versionHexChars ++ bytesToHexChars B) := rfl
  rw [henc]
  have hhexlen : (bytesToHexChars B).length = 2 * B.length := bytesToHexChars_length B
  have htake2 : (('0' : Char) :: 'x' :: (MAGIC_HEX ++ versionHexChars ++ bytesToHexChars B)).take 2 =
      ['0', 'x'] := rfl
  have hdrop2 : (('0' : Char) :: 'x' :: (MAGIC_HEX ++ versionHexChars ++ bytesToHexChars B)).drop 2 =
      MAGIC_HEX ++ versionHexChars ++ bytesToHexChars B := rfl
  have hlen : (MAGIC_HEX ++ versionHexChars ++ bytesToHexChars B).length = 10 + 2 * B.length := by
    simp only [List.length_append, hhexlen]
    rfl
  have hassoc : MAGIC_HEX ++ versionHexChars ++ bytesToHexChars B =
      MAGIC_HEX ++ (versionHexChars ++ bytesToHexChars B) := by
    simp [List.append_assoc]
  have htake8 : (MAGIC_HEX ++ versionHexChars ++ bytesToHexChars B).take 8 = MAGIC_HEX := by
    rw [hassoc]
    exact List.take_left' rfl
  have hdrop8 : (MAGIC_HEX ++ versionHexChars ++ bytesToHexChars B).drop 8 =
      versionHexChars ++ bytesToHexChars B := by
    rw [hassoc]
    exact List.drop_left' rfl
  have htakev : (versionHexChars ++ bytesToHexChars B).take 2 = versionHexChars :=
    List.take_left' rfl
  have hdrop10 : (MAGIC_HEX ++ versionHexChars ++ bytesToHexChars B).drop 10 =
      bytesToHexChars B := List.drop_left' rfl
  have hlower : MAGIC_HEX.map Char.toLower = MAGIC_HEX := by decide
  have hver : parseIntHex2 versionHexChars = some VERSION := rfl
  simp only [decodeVaultCellData, htake2, if_pos, hdrop2, hlen, htake8, hlower, hdrop8,
    htakev, hver, hdrop10, hrt, hutf, hjson, hvfj]
  rw [if_neg (by omega), if_neg (by simp), if_neg (by simp)]

/-- C3: for every valid `VaultPayload` (optional fields absent or present and
non-empty), decoding the encoding returns exactly the payload (under the
canonical embedding of a well-typed payload into the decoder's result
shape). -/
theorem claim_C3_decode_encode_roundtrip (p : VaultCellPayload)
    (h : ValidVaultPayload p) :
    decodeVaultCellData (encodeVaultCellData p) = some (payloadAsDecoded p) :=
  decode_encode_valid p h

/-- Witness for C3: round-trip evaluated at an all-optional-fields-present
payload and at an all-optional-fields-absent payload. -/
theorem claim_C3_decode_encode_roundtrip_witness :
    (ValidVaultPayload ⟨("addrA").toList, some (("Ann").toList), .blockHeight, 1000000,
        some (("hi").toList)⟩ ∧
      decodeVaultCellData (encodeVaultCellData ⟨("addrA").toList, some (("Ann").toList),
          .blockHeight, 1000000, some (("hi").toList)⟩) =
        some (payloadAsDecoded ⟨("addrA").toList, some (("Ann").toList), .blockHeight, 1000000,
          some (("hi").toList)⟩)) ∧
    (ValidVaultPayload ⟨("addrB").toList, none, .timestamp, 1700000000, none⟩ ∧
      decodeVaultCellData (encodeVaultCellData ⟨("addrB").toList, none, .timestamp,
          1700000000, none⟩) =
        some (payloadAsDecoded ⟨("addrB").toList, none, .timestamp, 1700000000, none⟩)) :=
  ⟨⟨by decide, claim_C3_decode_encode_roundtrip _ (by decide)⟩,
   ⟨by decide, claim_C3_decode_encode_roundtrip _ (by decide)⟩⟩

/-- C10: an empty-string `ownerName` or `memo` is encoded exactly like an
absent one (the key is omitted), and decoding maps it to `undefined`
(`none`), not to the empty string. -/
theorem claim_C10_empty_optional_fields :
    (∀ oa ut uv m, encodeVaultCellData ⟨oa, some [], ut, uv, m⟩ =
        encodeVaultCellData ⟨oa, none, ut, uv, m⟩) ∧
    (∀ oa yn ut uv, encodeVaultCellData ⟨oa, yn, ut, uv, some []⟩ =
        encodeVaultCellData ⟨oa, yn, ut, uv, none⟩) ∧
    (∀ oa ut uv, uv < 2 ^ 53 →
      decodeVaultCellData (encodeVaultCellData ⟨oa, some [], ut, uv, some []⟩) =
        some (payloadAsDecoded ⟨oa, none, ut, uv, none⟩)) := by
  refine ⟨fun oa ut uv m => ?_, fun oa yn ut uv => ?_, fun oa ut uv huv => ?_⟩
  · simp [encodeVaultCellData, vaultJsonObj, optField]
  · simp [encodeVaultCellData, vaultJsonObj, optField]
  · have henc : encodeVaultCellData ⟨oa, some [], ut, uv, some []⟩ =
        encodeVaultCellData ⟨oa, none, ut, uv, none⟩ := by
      simp [encodeVaultCellData, vaultJsonObj, optField]
    rw [henc]
    exact decode_encode_valid _ ⟨by simp, by simp, huv⟩

/-- Witness for C10: both optional fields empty at a concrete payload. -/
theorem claim_C10_empty_optional_fields_witness :
    (500 : Nat) < 2 ^ 53 ∧
    decodeVaultCellData (encodeVaultCellData ⟨("a").toList, some [], .blockHeight, 500,
        some []⟩) =
      some (payloadAsDecoded ⟨("a").toList, none, .blockHeight, 500, none⟩) :=
  ⟨by decide, claim_C10_empty_optional_fields.2.2 (("a").toList) .blockHeight 500 (by decide)⟩

/-- C9: the minimum capacity is the encoded data byte size plus the fixed
constants 8 (capacity field), 53 (standard lock script) and 2 (margin), and
is monotonically non-decreasing in encoded payload length. -/
theorem claim_C9_capacity_monotone (p1 p2 : VaultCellPayload)
    (h : (encodeVaultCellData p1).length ≤ (encodeVaultCellData p2).length) :
    calculateMinCapacityCKB p1 ≤ calculateMinCapacityCKB p2 ∧
    (∀ p, calculateMinCapacityCKB p = calculateDataSize p + (8 + 53 + 2)) := by
  constructor
  · have hds : calculateDataSize p1 ≤ calculateDataSize p2 :=
      Nat.div_le_div_right (Nat.sub_le_sub_right h 2)
    simp only [calculateMinCapacityCKB]
    omega
  · intro p
    simp only [calculateMinCapacityCKB]
    omega

/-- Witness for C9: a short payload versus one with an added memo. -/
theorem claim_C9_capacity_monotone_witness :
    (encodeVaultCellData ⟨("a").toList, none, .blockHeight, 5, none⟩).length ≤
      (encodeVaultCellData ⟨("a").toList, none, .blockHeight, 5,
        some (("memo").toList)⟩).length ∧
    calculateMinCapacityCKB ⟨("a").toList, none, .blockHeight, 5, none⟩ ≤
      calculateMinCapacityCKB ⟨("a").toList, none, .blockHeight, 5,
        some (("memo").toList)⟩ :=
  ⟨by decide, (claim_C9_capacity_monotone _ _ (by decide)).1⟩

-- ── isVaultCell: magic-only prefix test ──────────────────────────────────────

theorem toLower_hexDigitChar (d : Nat) (h : d < 16) :
    Char.toLower (hexDigitChar d) = hexDigitChar d := by
  revert h
  revert d
  decide

theorem map_toLower_bytesToHexChars (bs : List Nat) (h : ∀ b ∈ bs, b < 256) :
    (bytesToHexChars bs).map Char.toLower = bytesToHexChars bs := by
  induction bs with
  | nil => rfl
  | cons b rest ih =>
    have hb : b < 256 := h b (List.mem_cons_self b rest)
    have hrest : ∀ x ∈ rest, x < 256 := fun x hx => h x (List.mem_cons_of_mem b hx)
    have hstep : bytesToHexChars (b :: rest) = byteHexChars b ++ bytesToHexChars rest := by
      simp [bytesToHexChars]
    rw [hstep, List.map_append, ih hrest]
    simp [byteHexChars, toLower_hexDigitChar (b / 16) (by omega),
      toLower_hexDigitChar (b % 16) (by omega)]

theorem bytesToHexChars_take (bs : List Nat) : ∀ k,
    (bytesToHexChars bs).take (2 * k) = bytesToHexChars (bs.take k) := by
  induction bs with
  | nil => intro k; simp [bytesToHexChars]
  | cons b rest ih =>
    intro k
    cases k with
    | zero => simp [bytesToHexChars]
    | succ k =>
      have hstep : bytesToHexChars (b :: rest) = hexDigitChar (b / 16) ::
          hexDigitChar (b % 16) :: bytesToHexChars rest := by
        simp [bytesToHexChars, byteHexChars]
      have hstep2 : bytesToHexChars (b :: rest.take k) = hexDigitChar (b / 16) ::
          hexDigitChar (b % 16) :: bytesToHexChars (rest.take k) := by
        simp [bytesToHexChars, byteHexChars]
      rw [show 2 * (k + 1) = (2 * k) + 1 + 1 by omega, hstep, List.take_succ_cons,
        List.take_succ_cons, ih k, List.take_succ_cons, hstep2]

/-- C5 counterexample: a cell whose data has the right magic but version
byte `0x02` still passes `isVaultCell`, so the test does not check the
5-byte `MAGIC ‖ VERSION` prefix claimed by the specification. -/
theorem claim_C5_counterexample :
    isVaultCell (("0x49564c5402aabb").toList) = true ∧
    ¬((("0x49564c5402aabb").toList.drop 2).take 10 = MAGIC_HEX ++ versionHexChars) := by
  constructor
  · rfl
  · decide

theorem isVaultCell_iff_magic (bs : List Nat) (hwf : ∀ b ∈ bs, b < 256) :
    isVaultCell ('0' :: 'x' :: bytesToHexChars bs) = true ↔
      4 ≤ bs.length ∧ bs.take 4 = [0x49, 0x56, 0x4c, 0x54] := by
  have hwf4 : ∀ b ∈ bs.take 4, b < 256 := fun b hb => hwf b (List.mem_of_mem_take hb)
  have hstrip : ('0' :: 'x' :: bytesToHexChars bs).take 2 = ['0', 'x'] := rfl
  have hdrop : ('0' :: 'x' :: bytesToHexChars bs).drop 2 = bytesToHexChars bs := rfl
  have htk : (bytesToHexChars bs).take 8 = bytesToHexChars (bs.take 4) := by
    rw [show (8 : Nat) = 2 * 4 from rfl, bytesToHexChars_take]
  have hlow : (bytesToHexChars (bs.take 4)).map Char.toLower = bytesToHexChars (bs.take 4) :=
    map_toLower_bytesToHexChars _ hwf4
  simp only [isVaultCell, hstrip, hdrop, if_pos, Bool.and_eq_true, decide_eq_true_eq,
    bytesToHexChars_length, htk, hlow]
  constructor
  · rintro ⟨hlen, heq⟩
    refine ⟨by omega, ?_⟩
    have hinj := congrArg hexCharsToBytes heq
    rw [hexCharsToBytes_bytesToHexChars _ hwf4] at hinj
    rw [hinj]
    rfl
  · rintro ⟨hlen, heq⟩
    rw [heq]
    exact ⟨by omega, by decide⟩

/-- C5 (amended): `isVaultCell` is true iff the data is at least four bytes
long and its first four bytes are the magic `IVLT`; the version byte is not
inspected. -/
theorem claim_C5_magic_only_amended (bs : List Nat) (hwf : ∀ b ∈ bs, b < 256) :
    isVaultCell ('0' :: 'x' :: bytesToHexChars bs) = true ↔
      4 ≤ bs.length ∧ bs.take 4 = [0x49, 0x56, 0x4c, 0x54] :=
  isVaultCell_iff_magic bs hwf

/-- Witness for the amended C5: magic right, version byte wrong, still
accepted. -/
theorem claim_C5_magic_only_amended_witness :
    (∀ b ∈ [0x49, 0x56, 0x4c, 0x54, 0x02], b < 256) ∧
    (isVaultCell ('0' :: 'x' :: bytesToHexChars [0x49, 0x56, 0x4c, 0x54, 0x02]) = true ↔
      4 ≤ ([0x49, 0x56, 0x4c, 0x54, 0x02] : List Nat).length ∧
        ([0x49, 0x56, 0x4c, 0x54, 0x02] : List Nat).take 4 = [0x49, 0x56, 0x4c, 0x54]) :=
  ⟨by decide, claim_C5_magic_only_amended _ (by decide)⟩

-- ── decode rejection behaviour ───────────────────────────────────────────────

/-- C4 counterexample: an input with correct magic and version whose JSON
body `7b7d` (the text of an empty object) parses but has no owner or unlock
fields still decodes to a defaulted payload — not to the invalid marker. -/
theorem claim_C4_counterexample :
    decodeVaultCellData (("0x49564c54017b7d").toList) =
      some ⟨.str [], none, none, none, none⟩ ∧
    decodeVaultCellData (("0x49564c54017b7d").toList) ≠ none := by
  refine ⟨rfl, fun h => ?_⟩
  rw [show decodeVaultCellData (("0x49564c54017b7d").toList) =
      some ⟨Json.str [], none, none, none, none⟩ from rfl] at h
  exact Option.noConfusion h

/-- C4 (amended): `decodeVaultCellData` returns the invalid marker without
throwing for empty input, for a correct magic with a wrong version byte,
for a wrong magic, and for a body that is not parseable JSON (in general
and at the truncated body `7b`); but a parseable JSON body missing the
required owner/unlock fields decodes to a defaulted payload instead of the
invalid marker. -/
theorem claim_C4_decode_rejections_amended :
    decodeVaultCellData [] = none ∧
    decodeVaultCellData (("0x").toList) = none ∧
    (∀ c1 c2 d1 d2 rest, hexDigitVal c1 = some d1 → hexDigitVal c2 = some d2 →
      16 * d1 + d2 ≠ 1 →
      decodeVaultCellData ('0' :: 'x' :: (MAGIC_HEX ++ c1 :: c2 :: rest)) = none) ∧
    (∀ s, ((if s.take 2 = ['0', 'x'] then s.drop 2 else s).take 8).map Char.toLower ≠
        MAGIC_HEX → decodeVaultCellData s = none) ∧
    (∀ body, (∀ b ∈ body, b < 256) → jsonParse (utf8Decode body) = none →
      decodeVaultCellData ('0' :: 'x' :: (MAGIC_HEX ++ versionHexChars ++
        bytesToHexChars body)) = none) ∧
    decodeVaultCellData (("0x49564c54017b").toList) = none ∧
    decodeVaultCellData (("0x49564c54017b7d").toList) =
      some ⟨.str [], none, none, none, none⟩ := by
  refine ⟨rfl, rfl, ?_, ?_, ?_, rfl, rfl⟩
  · intro c1 c2 d1 d2 rest h1 h2 hne
    have htake : ('0' :: 'x' :: (MAGIC_HEX ++ c1 :: c2 :: rest)).take 2 = ['0', 'x'] := rfl
    have hdata : ('0' :: 'x' :: (MAGIC_HEX ++ c1 :: c2 :: rest)).drop 2 =
        MAGIC_HEX ++ c1 :: c2 :: rest := rfl
    by_cases hlen : (MAGIC_HEX ++ c1 :: c2 :: rest).length < 12
    · simp only [decodeVaultCellData, htake, hdata, if_pos, reduceIte, if_pos hlen]
    · have htake8 : (MAGIC_HEX ++ c1 :: c2 :: rest).take 8 = MAGIC_HEX :=
        List.take_left' rfl
      have hdrop8 : (MAGIC_HEX ++ c1 :: c2 :: rest).drop 8 = c1 :: c2 :: rest :=
        List.drop_left' rfl
      have hlower : MAGIC_HEX.map Char.toLower = MAGIC_HEX := by decide
      have hnever : ¬(parseIntHex2 [c1, c2] = some VERSION) := by
        have hpi : parseIntHex2 [c1, c2] = some (16 * d1 + d2) := by
          simp [parseIntHex2, h1, h2]
        rw [hpi]
        intro hcontra
        exact hne (by simpa [VERSION] using Option.some.inj hcontra)
      simp [decodeVaultCellData, htake, hdata, hlen, htake8, hlower, hdrop8]
      intro h12 hv
      exact absurd hv hnever
  · intro s hmag
    by_cases hlen : (if s.take 2 = ['0', 'x'] then s.drop 2 else s).length < 12
    · simp [decodeVaultCellData, hlen]
    · simp [decodeVaultCellData, hlen]
      intro hm8
      exfalso
      rw [List.map_take] at hmag
      exact hmag hm8
  · intro body hwf hjp
    have htake : (('0' : Char) :: 'x' :: (MAGIC_HEX ++ versionHexChars ++
        bytesToHexChars body)).take 2 = ['0', 'x'] := rfl
    have hdata : (('0' : Char) :: 'x' :: (MAGIC_HEX ++ versionHexChars ++
        bytesToHexChars body)).drop 2 =
        MAGIC_HEX ++ versionHexChars ++ bytesToHexChars body := rfl
    have hrt : hexCharsToBytes (bytesToHexChars body) = body :=
      hexCharsToBytes_bytesToHexChars _ hwf
    by_cases hlen : (MAGIC_HEX ++ versionHexChars ++ bytesToHexChars body).length < 12
    · simp [decodeVaultCellData, htake, hdata, hlen]
      intro h12 _ _
      exfalso
      simp [List.length_append] at hlen
      omega
    · simp [decodeVaultCellData, htake, hdata, hlen]
      intro _ _ _
      rw [show List.drop 10 (MAGIC_HEX ++ (versionHexChars ++ bytesToHexChars body)) =
          bytesToHexChars body from by
        rw [← List.append_assoc]
        exact List.drop_left' rfl]
      rw [hrt, hjp]

/-- Witness for the amended C4: the wrong-version, wrong-magic and
unparsable-body cases at concrete inputs. -/
theorem claim_C4_decode_rejections_amended_witness :
    decodeVaultCellData ('0' :: 'x' :: (MAGIC_HEX ++ '0' :: '2' :: ("7b7d").toList)) =
      none ∧
    decodeVaultCellData (("0xdeadbeef11223344").toList) = none ∧
    decodeVaultCellData ('0' :: 'x' :: (MAGIC_HEX ++ versionHexChars ++
      bytesToHexChars [0x7b])) = none := by
  refine ⟨claim_C4_decode_rejections_amended.2.2.1 '0' '2' 0 2 (("7b7d").toList)
      (by decide) (by decide) (by decide),
    claim_C4_decode_rejections_amended.2.2.2.1 (("0xdeadbeef11223344").toList) (by decide),
    claim_C4_decode_rejections_amended.2.2.2.2.1 [0x7b] (by decide) (by rfl)⟩

-- ── Vault indexer (src/unnamed/part_001, lib/vaultIndexer.ts) ────────────────

/-- Lock script in RPC snake_case form (`IndexerScript`). -/
structure IndexerScriptM where
  codeHash : Str
  hashType : Str
  args : Str
deriving Repr

/-- A cell output: capacity (shannons) and lock script. -/
structure CellOutputM where
  capacity : Nat
  lock : IndexerScriptM
deriving Repr

/-- One cell as stored on chain and served by the indexer: out-point,
output, raw data bytes and the block number it was committed in. -/
structure IndexerCellM where
  txHash : Str
  index : Nat
  output : CellOutputM
  data : List Nat
  blockNumber : Option Nat
deriving Repr

/-- The `output_data` hex string the RPC layer delivers for a cell. -/
def renderCellData (c : IndexerCellM) : Str := '0' :: 'x' :: bytesToHexChars c.data

/-- An enumerated on-chain vault (`OnChainVault`, carrying the raw capacity
instead of its display string). -/
structure OnChainVaultM where
  txHash : Str
  index : Nat
  capacity : Nat
  lock : IndexerScriptM
  data : DecodedVault
  blockNumber : Option Nat
deriving Repr

/-- Decode one indexer cell into a vault; `none` when its data does not
decode (the cell is silently skipped). -/
def cellToVault (c : IndexerCellM) : Option OnChainVaultM :=
  (decodeVaultCellData (renderCellData c)).map fun d =>
    ⟨c.txHash, c.index, c.output.capacity, c.output.lock, d, c.blockNumber⟩

/-- Per-page processing of `fetchVaultsForLockScript` (server-side filtered
path): decode every returned cell, skipping decode failures. -/
def processPagePrimary (cells : List IndexerCellM) : List OnChainVaultM :=
  cells.filterMap cellToVault

/-- Per-page processing of `fetchVaultsForLockScriptFallback`: client-side
`isVaultCell` check before decoding. -/
def processPageFallback (cells : List IndexerCellM) : List OnChainVaultM :=
  cells.filterMap fun c =>
    if isVaultCell (renderCellData c) then cellToVault c else none

/-- The five data bytes of `VAULT_DATA_PREFIX` (magic plus version). -/
def vaultPrefixBytes : List Nat := [0x49, 0x56, 0x4c, 0x54, 0x01]

/-- Modelled from the spec: the indexer's server-side `output_data` prefix
filter (`get_cells` with `output_data_filter_mode: "prefix"`) serves
exactly the cells whose data bytes start with the requested prefix; the
repository contains only the client side of this service. -/
def indexerPrefixFiltered (store : List IndexerCellM) : List IndexerCellM :=
  store.filter fun c => decide (c.data.take 5 = vaultPrefixBytes)

/-- The cursor-paginated `get_cells` loop: pages of (up to) 100 cells in
indexer order, stopping after the first short page. -/
def pagedScan (f : IndexerCellM → Option OnChainVaultM) :
    Nat → List IndexerCellM → List OnChainVaultM
  | 0, _ => []
  | fuel + 1, remaining =>
    let page := remaining.take 100
    if page.length < 100 then page.filterMap f
    else page.filterMap f ++ pagedScan f fuel (remaining.drop 100)

/-- Model of `fetchVaultsForLockScript` against an indexer whose store holds the
given cells: the prefix-filtered scan when the indexer supports the data
filter, otherwise (it errors on the filtered query) the unfiltered
fallback scan with the client-side magic check. -/
def fetchVaultsForLockScriptM (filterSupported : Bool)
    (store : List IndexerCellM) : List OnChainVaultM :=
  if filterSupported then
    pagedScan cellToVault ((indexerPrefixFiltered store).length + 1)
      (indexerPrefixFiltered store)
  else
    pagedScan (fun c => if isVaultCell (renderCellData c) then cellToVault c else none)
      (store.length + 1) store

theorem pagedScan_eq_filterMap (f : IndexerCellM → Option OnChainVaultM) :
    ∀ fuel l, l.length < 100 * fuel → pagedScan f fuel l = l.filterMap f := by
  intro fuel
  induction fuel with
  | zero => intro l h; omega
  | succ fuel ih =>
    intro l h
    by_cases hshort : (l.take 100).length < 100
    · have hlt : l.length < 100 := by
        simpa [List.length_take] using hshort
      have hteq : l.take 100 = l := List.take_of_length_le (by omega)
      simp [pagedScan, hteq]
      intro hge
      exact absurd hge (by omega)
    · have hlen : l.length ≥ 100 := by
        simp [List.length_take] at hshort
        omega
      have hdrop : (l.drop 100).length < 100 * fuel := by
        simp [List.length_drop]
        omega
      have hsplit : l.take 100 ++ l.drop 100 = l := List.take_append_drop 100 l
      simp only [pagedScan, if_neg hshort]
      rw [ih (l.drop 100) hdrop, ← List.filterMap_append, hsplit]

theorem bytesToHexChars_drop (bs : List Nat) : ∀ k,
    (bytesToHexChars bs).drop (2 * k) = bytesToHexChars (bs.drop k) := by
  induction bs with
  | nil => intro k; simp [bytesToHexChars]
  | cons b rest ih =>
    intro k
    cases k with
    | zero => simp
    | succ k =>
      have hstep : bytesToHexChars (b :: rest) = hexDigitChar (b / 16) ::
          hexDigitChar (b % 16) :: bytesToHexChars rest := by
        simp [bytesToHexChars, byteHexChars]
      rw [show 2 * (k + 1) = (2 * k) + 1 + 1 by omega, hstep, List.drop_succ_cons,
        List.drop_succ_cons, ih k, List.drop_succ_cons]

theorem decode_some_vaultHeader (B : List Nat) (hwf : ∀ b ∈ B, b < 256) (d : DecodedVault)
    (hd : decodeVaultCellData ('0' :: 'x' :: bytesToHexChars B) = some d) :
    5 ≤ B.length ∧ B.take 5 = vaultPrefixBytes := by
  by_cases h1 : (bytesToHexChars B).length < 12
  · simp [decodeVaultCellData, h1] at hd
  by_cases h2 : List.map Char.toLower (List.take 8 (bytesToHexChars B)) = MAGIC_HEX
  case neg =>
    simp [decodeVaultCellData, h1] at hd
    rw [List.map_take] at h2
    exact absurd hd.1 h2
  by_cases h3 : parseIntHex2 (List.take 2 (List.drop 8 (bytesToHexChars B))) = some VERSION
  case neg =>
    simp [decodeVaultCellData, h1, h3] at hd
  -- all three header checks pass: extract the first five bytes
  have hBlen : 6 ≤ B.length := by
    rw [bytesToHexChars_length] at h1
    omega
  have hwf4 : ∀ b ∈ B.take 4, b < 256 := fun b hb => hwf b (List.mem_of_mem_take hb)
  have hmagic : bytesToHexChars (B.take 4) = MAGIC_HEX := by
    rw [show (8 : Nat) = 2 * 4 from rfl, bytesToHexChars_take] at h2
    rw [← h2, map_toLower_bytesToHexChars _ hwf4]
  have htake4 : B.take 4 = [0x49, 0x56, 0x4c, 0x54] := by
    have hinj := congrArg hexCharsToBytes hmagic
    rw [hexCharsToBytes_bytesToHexChars _ hwf4] at hinj
    rw [hinj]
    rfl
  have hdrop4 : (bytesToHexChars B).drop 8 = bytesToHexChars (B.drop 4) := by
    rw [show (8 : Nat) = 2 * 4 from rfl, bytesToHexChars_drop]
  obtain ⟨b4, rest4, hcons⟩ : ∃ b4 rest4, B.drop 4 = b4 :: rest4 := by
    have : B.drop 4 ≠ [] := by
      intro hnil
      have := congrArg List.length hnil
      simp [List.length_drop] at this
      omega
    exact List.exists_cons_of_ne_nil this
  have hb4 : b4 < 256 := by
    have : b4 ∈ B.drop 4 := by
      rw [hcons]
      exact List.mem_cons_self _ _
    exact hwf b4 (List.mem_of_mem_drop this)
  have hb4eq : b4 = 1 := by
    rw [hdrop4, hcons] at h3
    have hstep : bytesToHexChars (b4 :: rest4) = hexDigitChar (b4 / 16) ::
        hexDigitChar (b4 % 16) :: bytesToHexChars rest4 := by
      simp [bytesToHexChars, byteHexChars]
    rw [hstep] at h3
    simp only [List.take_succ_cons, List.take_zero] at h3
    have hv1 : hexDigitVal (hexDigitChar (b4 / 16)) = some (b4 / 16) :=
      hexDigitVal_hexDigitChar _ (by omega)
    have hv2 : hexDigitVal (hexDigitChar (b4 % 16)) = some (b4 % 16) :=
      hexDigitVal_hexDigitChar _ (by omega)
    simp [parseIntHex2, hv1, hv2, VERSION] at h3
    omega
  refine ⟨by omega, ?_⟩
  have htk : B.take 5 = B.take 4 ++ (B.drop 4).take 1 := by
    rw [← List.take_add]
  rw [htk, htake4, hcons, hb4eq]
  rfl

theorem prefix_isVaultCell (c : IndexerCellM) (hwf : ∀ b ∈ c.data, b < 256)
    (hp : c.data.take 5 = vaultPrefixBytes) : isVaultCell (renderCellData c) = true := by
  rw [renderCellData]
  rw [isVaultCell_iff_magic c.data hwf]
  have hlen : 5 ≤ c.data.length := by
    have := congrArg List.length hp
    simp [List.length_take, vaultPrefixBytes] at this
    omega
  refine ⟨by omega, ?_⟩
  have h44 : c.data.take 4 = (c.data.take 5).take 4 := by
    rw [List.take_take]
    norm_num
  rw [h44, hp]
  rfl

theorem cellToVault_some_vaultHeader (c : IndexerCellM) (hwf : ∀ b ∈ c.data, b < 256)
    (v : OnChainVaultM) (h : cellToVault c = some v) :
    c.data.take 5 = vaultPrefixBytes := by
  rw [cellToVault] at h
  rcases hdec : decodeVaultCellData (renderCellData c) with _ | d
  · rw [hdec] at h
    simp at h
  · exact (decode_some_vaultHeader c.data hwf d (by rw [← renderCellData, hdec])).2

/-- C7: over the same underlying cell set, the client-side fallback scan
(unfiltered pages, `isVaultCell` applied before decode) produces exactly
the vault list that the server-side prefix-filtered scan produces; an
indexer that errors on the filtered query therefore yields the same result
through the fallback as a filter-capable indexer would. -/
theorem claim_C7_fallback_equivalence (store : List IndexerCellM)
    (hwf : ∀ c ∈ store, ∀ b ∈ c.data, b < 256) :
    fetchVaultsForLockScriptM false store = fetchVaultsForLockScriptM true store := by
  have hb1 : store.length < 100 * (store.length + 1) := by omega
  have hb2 : (indexerPrefixFiltered store).length <
      100 * ((indexerPrefixFiltered store).length + 1) := by omega
  simp only [fetchVaultsForLockScriptM, if_true, if_false, Bool.false_eq_true,
    reduceIte]
  rw [pagedScan_eq_filterMap _ _ _ hb1, pagedScan_eq_filterMap _ _ _ hb2]
  unfold indexerPrefixFiltered
  induction store with
  | nil => rfl
  | cons c rest ih =>
    have hcwf : ∀ b ∈ c.data, b < 256 := hwf c (List.mem_cons_self _ _)
    have hrwf : ∀ x ∈ rest, ∀ b ∈ x.data, b < 256 :=
      fun x hx => hwf x (List.mem_cons_of_mem _ hx)
    have ihr := ih hrwf (by omega) (by
      have : (rest.filter fun c => decide (c.data.take 5 = vaultPrefixBytes)).length ≤
          rest.length + 1 := by
        have := List.length_filter_le (fun c => decide (c.data.take 5 = vaultPrefixBytes)) rest
        omega
      omega)
    by_cases hp : c.data.take 5 = vaultPrefixBytes
    · rw [List.filter_cons_of_pos (by simpa using hp)]
      rcases hcv : cellToVault c with _ | v
      · have hfb : (if isVaultCell (renderCellData c) then cellToVault c else none) = none := by
          by_cases hiv : isVaultCell (renderCellData c) = true
          · simp [hiv, hcv]
          · simp at hiv
            simp [hiv]
        simp [List.filterMap_cons, hfb, hcv, ihr]
      · have hiv : isVaultCell (renderCellData c) = true := prefix_isVaultCell c hcwf hp
        have hfb : (if isVaultCell (renderCellData c) then cellToVault c else none) =
            some v := by simp [hiv, hcv]
        simp [List.filterMap_cons, hfb, hcv, hiv, ihr]
    · rw [List.filter_cons_of_neg (by simpa using hp)]
      have hfb : (if isVaultCell (renderCellData c) then cellToVault c else none) = none := by
        rcases hcv : cellToVault c with _ | v
        · by_cases hiv : isVaultCell (renderCellData c) = true
          · simp [hiv, hcv]
          · simp at hiv
            simp [hiv]
        · exact absurd (cellToVault_some_vaultHeader c hcwf v hcv) hp
      simp [List.filterMap_cons, hfb, ihr]

/-- Witness for C7: a store holding one valid vault cell, one cell with the
magic but a bad version, and one unrelated cell. -/
theorem claim_C7_fallback_equivalence_witness :
    (∀ c ∈ [(⟨("aa").toList, 0, ⟨25000000000, ⟨("ch").toList, ("t").toList, ("ar").toList⟩⟩,
        [0x49, 0x56, 0x4c, 0x54, 0x01, 0x7b, 0x7d], some 5⟩ : IndexerCellM),
      ⟨("bb").toList, 1, ⟨9000, ⟨("ch").toList, ("t").toList, ("ar").toList⟩⟩,
        [0x49, 0x56, 0x4c, 0x54, 0x02, 0x7b, 0x7d], none⟩,
      ⟨("cc").toList, 2, ⟨7000, ⟨("ch").toList, ("t").toList, ("ar").toList⟩⟩,
        [0xde, 0xad], none⟩], ∀ b ∈ c.data, b < 256) ∧
    fetchVaultsForLockScriptM false
      [⟨("aa").toList, 0, ⟨25000000000, ⟨("ch").toList, ("t").toList, ("ar").toList⟩⟩,
        [0x49, 0x56, 0x4c, 0x54, 0x01, 0x7b, 0x7d], some 5⟩,
      ⟨("bb").toList, 1, ⟨9000, ⟨("ch").toList, ("t").toList, ("ar").toList⟩⟩,
        [0x49, 0x56, 0x4c, 0x54, 0x02, 0x7b, 0x7d], none⟩,
      ⟨("cc").toList, 2, ⟨7000, ⟨("ch").toList, ("t").toList, ("ar").toList⟩⟩,
        [0xde, 0xad], none⟩] =
    fetchVaultsForLockScriptM true
      [⟨("aa").toList, 0, ⟨25000000000, ⟨("ch").toList, ("t").toList, ("ar").toList⟩⟩,
        [0x49, 0x56, 0x4c, 0x54, 0x01, 0x7b, 0x7d], some 5⟩,
      ⟨("bb").toList, 1, ⟨9000, ⟨("ch").toList, ("t").toList, ("ar").toList⟩⟩,
        [0x49, 0x56, 0x4c, 0x54, 0x02, 0x7b, 0x7d], none⟩,
      ⟨("cc").toList, 2, ⟨7000, ⟨("ch").toList, ("t").toList, ("ar").toList⟩⟩,
        [0xde, 0xad], none⟩] :=
  ⟨by decide, claim_C7_fallback_equivalence _ (by decide)⟩

-- ── Vault resolution from a transaction (fetchVaultFromTransaction) ──────────

/-- The `tx_status.status` values of `get_transaction`. -/
inductive TxStatusM where
  | pending
  | proposed
  | committed
  | rejected
  | unknown
deriving DecidableEq, Repr

/-- The transaction body of a `get_transaction` response. -/
structure TxBodyM where
  outputs : List CellOutputM
  outputsData : List Str
deriving Repr

/-- A successful `get_transaction` JSON-RPC result: optional transaction,
optional reported status and optional commit block number. -/
structure TxRespM where
  transaction : Option TxBodyM
  txStatus : Option TxStatusM
  txBlockNumber : Option Nat
deriving Repr

/-- The result record of `fetchVaultFromTransaction` (`VaultFromTx`). -/
structure VaultFromTxM where
  txHash : Str
  index : Nat
  capacity : Nat
  lock : IndexerScriptM
  data : DecodedVault
  txStatus : TxStatusM
  isLive : Bool
  blockNumber : Option Nat
deriving Repr

/-- Model of `fetchVaultFromTransaction` as a function of the two RPC responses it
observes: the `get_transaction` response (`Except.error` for a thrown
fetch failure or an RPC error object) and the `get_live_cell` response
(`.ok` carries `result?.status`; `.error` a thrown fetch failure).  The
liveness response is consulted only on the `committed` path. -/
def fetchVaultFromTransaction (txHash : Str) (index : Nat)
    (txResp : Except Unit TxRespM) (liveResp : Except Unit (Option Str)) :
    Except Unit (Option VaultFromTxM) :=
  match txResp with
  | .error _ => .error ()
  | .ok resp =>
    match resp.transaction with
    | none => .ok none
    | some tx =>
      match tx.outputs.get? index, tx.outputsData.get? index with
      | some output, some outputData =>
        if outputData = [] then .ok none
        else if ¬(isVaultCell outputData = true) then .ok none
        else
          match decodeVaultCellData outputData with
          | none => .ok none
          | some decoded =>
            let txStatus := resp.txStatus.getD .unknown
            let isLive :=
              if txStatus = .committed then
                match liveResp with
                | .ok (some s) => s = ("live").toList
                | .ok none => false
                | .error _ => false
              else false
            .ok (some ⟨txHash, index, output.capacity, output.lock, decoded,
              txStatus, isLive, resp.txBlockNumber⟩)
      | _, _ => .ok none

/-- C6: when the reported status is `committed` and the live-cell check
returns `"unknown"` or fails, the resolved vault carries status committed
with `isLive = false`; for any other reported status the vault carries
that status with `isLive = false` and the result does not depend on the
live-cell response (no liveness check is performed). -/
theorem claim_C6_status_merge (txHash : Str) (index : Nat) (resp : TxRespM)
    (tx : TxBodyM) (output : CellOutputM) (outputData : Str) (decoded : DecodedVault)
    (htx : resp.transaction = some tx)
    (hout : tx.outputs.get? index = some output)
    (hdat : tx.outputsData.get? index = some outputData)
    (hne : outputData ≠ [])
    (hiv : isVaultCell outputData = true)
    (hdec : decodeVaultCellData outputData = some decoded) :
    (∀ liveResp, liveResp = .ok (some (("unknown").toList)) ∨ liveResp = .error () →
      resp.txStatus = some .committed →
      fetchVaultFromTransaction txHash index (.ok resp) liveResp =
        .ok (some ⟨txHash, index, output.capacity, output.lock, decoded, .committed,
          false, resp.txBlockNumber⟩)) ∧
    (∀ s liveResp, resp.txStatus = some s → s ≠ .committed →
      (fetchVaultFromTransaction txHash index (.ok resp) liveResp =
        .ok (some ⟨txHash, index, output.capacity, output.lock, decoded, s,
          false, resp.txBlockNumber⟩) ∧
      ∀ liveResp', fetchVaultFromTransaction txHash index (.ok resp) liveResp =
        fetchVaultFromTransaction txHash index (.ok resp) liveResp')) := by
  simp only [List.get?_eq_getElem?] at hout hdat
  constructor
  · intro liveResp hlive hst
    rcases hlive with h | h <;>
      simp [fetchVaultFromTransaction, htx, hout, hdat, hne, hiv, hdec, hst, h]
  · intro s liveResp hst hsne
    constructor
    · simp [fetchVaultFromTransaction, htx, hout, hdat, hne, hiv, hdec, hst, hsne]
    · intro liveResp'
      simp [fetchVaultFromTransaction, htx, hout, hdat, hne, hiv, hdec, hst, hsne]

/-- A concrete beneficiary lock used in witnesses. -/
def c6lock : IndexerScriptM := ⟨("ch").toList, ("t").toList, ("ar").toList⟩

/-- A concrete cell output used in witnesses. -/
def c6cell : CellOutputM := ⟨25000000000, c6lock⟩

/-- Concrete vault cell data (magic, version 1, body the empty JSON
object). -/
def c6data : Str := ("0x49564c54017b7d").toList

/-- The decoded form of `c6data`. -/
def c6decoded : DecodedVault := ⟨.str [], none, none, none, none⟩

/-- A committed `get_transaction` response holding the vault cell. -/
def c6respCommitted : TxRespM := ⟨some ⟨[c6cell], [c6data]⟩, some .committed, some 7⟩

/-- A pending `get_transaction` response holding the vault cell. -/
def c6respPending : TxRespM := ⟨some ⟨[c6cell], [c6data]⟩, some .pending, none⟩

/-- Witness for C6: committed with a spent (`"unknown"`) live-cell answer,
and pending with a failing liveness transport, including independence of
the pending result from the liveness response. -/
theorem claim_C6_status_merge_witness :
    fetchVaultFromTransaction (("tt").toList) 0 (.ok c6respCommitted)
        (.ok (some (("unknown").toList))) =
      .ok (some ⟨("tt").toList, 0, c6cell.capacity, c6cell.lock, c6decoded, .committed,
        false, some 7⟩) ∧
    fetchVaultFromTransaction (("tt").toList) 0 (.ok c6respPending) (.error ()) =
      .ok (some ⟨("tt").toList, 0, c6cell.capacity, c6cell.lock, c6decoded, .pending,
        false, none⟩) ∧
    fetchVaultFromTransaction (("tt").toList) 0 (.ok c6respPending) (.error ()) =
      fetchVaultFromTransaction (("tt").toList) 0 (.ok c6respPending)
        (.ok (some (("live").toList))) := by
  refine ⟨?_, ?_, ?_⟩
  · exact (claim_C6_status_merge (("tt").toList) 0 c6respCommitted ⟨[c6cell], [c6data]⟩
      c6cell c6data c6decoded rfl rfl rfl (by decide) rfl rfl).1 _ (Or.inl rfl) rfl
  · exact ((claim_C6_status_merge (("tt").toList) 0 c6respPending ⟨[c6cell], [c6data]⟩
      c6cell c6data c6decoded rfl rfl rfl (by decide) rfl rfl).2 .pending (.error ()) rfl
      (by decide)).1
  · exact ((claim_C6_status_merge (("tt").toList) 0 c6respPending ⟨[c6cell], [c6data]⟩
      c6cell c6data c6decoded rfl rfl rfl (by decide) rfl rfl).2 .pending (.error ()) rfl
      (by decide)).2 _

-- ── Transport failures during enumeration (C8) ───────────────────────────────

/-- One `get_cells` exchange as the client observes it: a thrown fetch
failure, a JSON-RPC error object, or a page of cells. -/
inductive PageRespM where
  | netThrow
  | rpcErr
  | page (cells : List IndexerCellM)

/-- The fallback pagination loop of `fetchVaultsForLockScriptFallback`: a
thrown fetch rejection propagates; a JSON-RPC error object breaks the loop
and returns the vaults accumulated so far; a short page ends the scan. -/
def fallbackScanM : List PageRespM → List OnChainVaultM → Except Unit (List OnChainVaultM)
  | [], _ => .error ()
  | .netThrow :: _, _ => .error ()
  | .rpcErr :: _, acc => .ok acc
  | .page cs :: rest, acc =>
    let acc2 := acc ++ processPageFallback cs
    if cs.length < 100 then .ok acc2 else fallbackScanM rest acc2

/-- The primary pagination loop of `fetchVaultsForLockScript`: either kind
of failure abandons the accumulated vaults and reruns the whole scan
through the fallback path. -/
def primaryScanM : List PageRespM → List PageRespM → List OnChainVaultM →
    Except Unit (List OnChainVaultM)
  | [], _, _ => .error ()
  | .netThrow :: _, fb, _ => fallbackScanM fb []
  | .rpcErr :: _, fb, _ => fallbackScanM fb []
  | .page cs :: rest, fb, acc =>
    let acc2 := acc ++ processPagePrimary cs
    if cs.length < 100 then .ok acc2 else primaryScanM rest fb acc2

/-- Vault enumeration as a function of the responses the indexer gives the
primary (filtered) query sequence and the fallback (unfiltered) query
sequence. -/
def fetchVaultsWithResponsesM (prim fb : List PageRespM) :
    Except Unit (List OnChainVaultM) :=
  primaryScanM prim fb []

/-- The cell-by-outpoint structure of `getCellByOutPointViaRpc`. -/
structure CkbCellM where
  output : CellOutputM
  outputData : Str
  outPointTxHash : Str
  outPointIndex : Nat
deriving Repr

/-- Model of `getCellByOutPointViaRpc` (src/src/lib/ckb.ts) as a function of the
`get_transaction` response: any thrown transport failure is caught and
reported as `none` (cell not found). -/
def getCellByOutPointViaRpcM (txResp : Except Unit TxRespM) (txHash : Str)
    (index : Nat) : Option CkbCellM :=
  match txResp with
  | .error _ => none
  | .ok resp =>
    match resp.transaction with
    | none => none
    | some tx =>
      match tx.outputs.get? index with
      | none => none
      | some output =>
        some ⟨output,
          match tx.outputsData.get? index with
          | none => '0' :: 'x' :: []
          | some d => if d = [] then '0' :: 'x' :: [] else d,
          txHash, index⟩

/-- C8 counterexample: the primary query errors with a JSON-RPC error
object, the fallback's first query errors the same way, and enumeration
returns a silent empty success instead of surfacing an error. -/
theorem claim_C8_counterexample :
    fetchVaultsWithResponsesM [.rpcErr] [.rpcErr] = .ok [] ∧
    ∀ e, fetchVaultsWithResponsesM [.rpcErr] [.rpcErr] ≠ .error e := by
  refine ⟨rfl, fun e h => ?_⟩
  rw [show fetchVaultsWithResponsesM [.rpcErr] [.rpcErr] = .ok [] from rfl] at h
  exact Except.noConfusion h

/-- C8 (amended): a thrown fetch failure in the fallback propagates as an
explicit error, but a JSON-RPC error object in the fallback terminates
pagination and yields the partially accumulated vault list (empty when the
first page errors) as a silent success; either failure of the primary
query reruns the fallback; and `getCellByOutPointViaRpc` maps a transport
failure to `none` rather than an error. -/
theorem claim_C8_fallback_swallows_rpc_errors :
    (∀ prim fb, fetchVaultsWithResponsesM (.rpcErr :: prim) fb = fallbackScanM fb []) ∧
    (∀ prim fb, fetchVaultsWithResponsesM (.netThrow :: prim) fb = fallbackScanM fb []) ∧
    (∀ rest acc, fallbackScanM (.netThrow :: rest) acc = .error ()) ∧
    (∀ rest acc, fallbackScanM (.rpcErr :: rest) acc = .ok acc) ∧
    (∀ cs rest acc, cs.length = 100 →
      fallbackScanM (.page cs :: .rpcErr :: rest) acc =
        .ok (acc ++ processPageFallback cs)) ∧
    (∀ txHash index, getCellByOutPointViaRpcM (.error ()) txHash index = none) := by
  refine ⟨fun prim fb => rfl, fun prim fb => rfl, fun rest acc => rfl,
    fun rest acc => rfl, ?_, fun txHash index => rfl⟩
  intro cs rest acc hlen
  simp [fallbackScanM, hlen]

/-- An inert cell (empty data) for padding a full page in the witness. -/
def blankCellM : IndexerCellM := ⟨[], 0, ⟨0, ⟨[], [], []⟩⟩, [], none⟩

/-- Witness for the amended C8: a full page followed by an RPC error object
returns the partial result as a success. -/
theorem claim_C8_fallback_swallows_rpc_errors_witness :
    (List.replicate 100 blankCellM).length = 100 ∧
    fallbackScanM [.page (List.replicate 100 blankCellM), .rpcErr] [] =
      .ok ([] ++ processPageFallback (List.replicate 100 blankCellM)) :=
  ⟨by simp, claim_C8_fallback_swallows_rpc_errors.2.2.2.2.1
    (List.replicate 100 blankCellM) [] [] (by simp)⟩
